import Mathlib

/-!
Verification of the resumable download engine found in
`core_functions/downloader/` (worker.py, manager.py, db.py, status.py).
The Python code is shallowly embedded: pure computations become Lean
functions, the mutable manager/registry state becomes explicit state
passing, and the worker's streaming loop becomes a fold over the list of
received chunk sizes.
-/

set_option autoImplicit false

namespace Downloader

/-- Embedding of `DownloadStatus` from status.py (lines 8-14). -/
inductive DownloadStatus
  | PENDING
  | DOWNLOADING
  | PAUSED
  | CANCELLED
  | COMPLETED
  | ERROR
deriving DecidableEq, Repr

/-- Embedding of `DownloadProgress.percentage` (status.py lines 46-54):
`int((downloaded_bytes / total_bytes) * 100)` with the `total_bytes == 0`
guard returning 0.  For non-negative integers the truncation equals floor
division. -/
def percentage (downloaded total : Nat) : Nat :=
  if total = 0 then 0 else downloaded * 100 / total

/-- File open mode chosen by the worker: `"ab"` (append) or `"wb"`
(create/truncate), worker.py line 61. -/
inductive FileMode
  | append
  | truncate
deriving DecidableEq, Repr

/-- The values computed by `DownloadWorker._download_file` before streaming
starts (worker.py lines 59-69).  `rangeHeader = some o` models sending the
header `Range: bytes=o-`; `none` models sending no Range header. -/
structure Setup where
  offset : Nat
  mode : FileMode
  rangeHeader : Option Nat
  total : Nat
deriving DecidableEq, Repr

/-- Embedding of worker.py lines 59-69: the resume offset is the size of an
existing `<final-path>.part` temp file (0 when absent), the file mode is
append iff the offset is positive, a Range header is sent iff the offset is
positive, and `total_bytes = downloaded_bytes + content_length` where
`content_length` defaults to 0 when the response has no content-length
header. -/
def downloadSetup (tempExists : Bool) (tempSize contentLength : Nat) : Setup :=
  let downloaded := if tempExists then tempSize else 0
  { offset := downloaded
    mode := if downloaded > 0 then FileMode.append else FileMode.truncate
    rangeHeader := if downloaded > 0 then some downloaded else none
    total := downloaded + contentLength }

/-- Result of one iteration of the chunk loop body (worker.py lines
103-119) for a chunk that passed the cancel and pause checks. -/
structure ChunkEffect where
  downloaded : Nat
  emitProgress : Bool
  dbPersist : Bool
deriving DecidableEq, Repr

/-- Embedding of worker.py lines 103-119.  An empty chunk is skipped
(`if chunk:`).  Otherwise the chunk is written, `downloaded_bytes` advances
by its length, and a progress event (plus a status event and, when a db is
configured, a db upsert) fires iff
`progress.percentage - last_percentage >= 1` or
`downloaded_bytes == total_bytes`, where `last_percentage` is the
percentage recomputed just before this chunk's update. -/
def chunkEffect (hasDb : Bool) (total downloaded chunk : Nat) : ChunkEffect :=
  if chunk = 0 then ⟨downloaded, false, false⟩
  else
    let d2 := downloaded + chunk
    let emit := decide ((1 : Int) ≤ (percentage d2 total : Int) -
        (percentage downloaded total : Int) ∨ d2 = total)
    ⟨d2, emit, if emit then (if hasDb then true else false) else false⟩

/-- The successive `ChunkEffect`s of the streaming loop, starting from a
given byte count (worker.py lines 82-119). -/
def streamTrace (hasDb : Bool) (total : Nat) : Nat → List Nat → List ChunkEffect
  | _, [] => []
  | d, c :: cs =>
    let e := chunkEffect hasDb total d c
    e :: streamTrace hasDb total e.downloaded cs

/-- Final value of `downloaded_bytes` after the streaming loop consumes all
chunks. -/
def streamFinal (hasDb : Bool) (total downloaded : Nat) (chunks : List Nat) : Nat :=
  chunks.foldl (fun d c => (chunkEffect hasDb total d c).downloaded) downloaded

/-- Streaming trace paired with a ghost variable: the integer percentage at
the moment of the last emitted progress event (initialised from the loop's
starting percentage, worker.py line 77).  Each produced triple is
(downloaded bytes after the chunk, ghost value before the chunk, the
chunk's effect). -/
def emitTrace (hasDb : Bool) (total : Nat) :
    Nat → Nat → List Nat → List (Nat × Nat × ChunkEffect)
  | _, _, [] => []
  | d, e, c :: cs =>
    let eff := chunkEffect hasDb total d c
    let e2 := if eff.emitProgress then percentage eff.downloaded total else e
    (eff.downloaded, e, eff) :: emitTrace hasDb total eff.downloaded e2 cs

/-- Observable events emitted by a worker run through its callbacks. -/
inductive StreamEvent
  | statusEvent (s : DownloadStatus)
  | progressEvent
  | finishedEvent
deriving DecidableEq, Repr

/-- One scheduling step of the streaming loop as seen by the cancel and
pause checks at the top of the loop body (worker.py lines 84-101):
either the flags are clear and a chunk is processed, or the check at line
84 observes a set cancel flag (local `_cancelled` or manager-wide
`_cancel_all`), or the worker is parked on the pause condition and the
check at line 92 observes shutdown/cancel. -/
inductive ChunkStep
  | chunk (size : Nat)
  | cancelObserved
  | pauseCancelObserved
deriving DecidableEq, Repr

/-- Outcome of a worker streaming run: final byte count, whether the temp
file is still on disk, whether the final file was produced at the
destination, and the events emitted by the loop. -/
structure RunResult where
  downloaded : Nat
  tempOnDisk : Bool
  finalOnDisk : Bool
  events : List StreamEvent
deriving DecidableEq, Repr

/-- Embedding of the streaming loop and its epilogue (worker.py lines
81-135).  On a `cancelObserved` step the worker emits CANCELLED and
returns; on a `pauseCancelObserved` step it returns silently; in both
cases the temp file is left as it is.  When the loop exhausts its steps,
`endCancelled` models `self._cancelled or self.manager._cancel_all` at
line 121: when false the temp file is renamed onto the final path,
COMPLETED and finished events fire; when true nothing is finalised. -/
def runStream (hasDb : Bool) (total : Nat) (endCancelled : Bool) :
    Nat → Bool → List ChunkStep → RunResult
  | d, temp, [] =>
    if endCancelled then
      { downloaded := d, tempOnDisk := temp, finalOnDisk := false, events := [] }
    else
      { downloaded := d, tempOnDisk := false, finalOnDisk := true,
        events := [StreamEvent.statusEvent DownloadStatus.COMPLETED,
                   StreamEvent.finishedEvent] }
  | d, temp, ChunkStep.cancelObserved :: _ =>
    { downloaded := d, tempOnDisk := temp, finalOnDisk := false,
      events := [StreamEvent.statusEvent DownloadStatus.CANCELLED] }
  | d, temp, ChunkStep.pauseCancelObserved :: _ =>
    { downloaded := d, tempOnDisk := temp, finalOnDisk := false, events := [] }
  | d, temp, ChunkStep.chunk c :: rest =>
    let eff := chunkEffect hasDb total d c
    let r := runStream hasDb total endCancelled eff.downloaded temp rest
    { r with events :=
        (if eff.emitProgress then
          [StreamEvent.progressEvent,
           StreamEvent.statusEvent DownloadStatus.DOWNLOADING] else []) ++ r.events }

/-- Outcome of `DownloadWorker.cancel` (worker.py lines 156-163): the
local cancel flag is set, the temp file is deleted when present
(`delete_temp_file`, lines 173-181), and a CANCELLED status event fires. -/
structure CancelResult where
  cancelledFlag : Bool
  tempOnDisk : Bool
  events : List StreamEvent
deriving DecidableEq, Repr

/-- Embedding of `DownloadWorker.cancel` (worker.py lines 156-163). -/
def cancelMethod (_tempOnDisk : Bool) : CancelResult :=
  { cancelledFlag := true
    tempOnDisk := false
    events := [StreamEvent.statusEvent DownloadStatus.CANCELLED] }

/-! ## Manager, registry and persistence store (manager.py, db.py) -/

/-- One in-memory item record as held in `DownloadManager._downloads`
(a Python dict per item).  `hasWorker` models the presence of the
`"worker"` key; `workerRunning` models `worker.is_running()`. -/
structure Rec where
  url : String := ""
  filename : String := ""
  folder_path : String := ""
  status : DownloadStatus := DownloadStatus.PENDING
  downloaded_bytes : Nat := 0
  total_bytes : Nat := 0
  hasWorker : Bool := false
  workerRunning : Bool := false
deriving DecidableEq, Repr

/-- The registry `DownloadManager._downloads`: a Python dict from int id to
item record, i.e. an insertion-ordered association list with unique keys. -/
abbrev Registry := List (Nat × Rec)

/-- Assignment `m[k] = v` on a Python dict: replace in place when the key
exists, append otherwise. -/
def dictSet (m : Registry) (k : Nat) (v : Rec) : Registry :=
  if m.any (fun p => p.1 == k) then
    m.map (fun p => if p.1 == k then (k, v) else p)
  else m ++ [(k, v)]

/-- In-place mutation of the record stored under a key (no-op when the key
is absent), modelling `self._downloads[id][field] = ...`. -/
def dictModify (m : Registry) (k : Nat) (f : Rec → Rec) : Registry :=
  m.map (fun p => if p.1 == k then (p.1, f p.2) else p)

/-- Deletion `del m[k]` on a Python dict. -/
def dictDel (m : Registry) (k : Nat) : Registry :=
  m.filter (fun p => ¬ p.1 = k)

/-- The persistence store (db.py): rows keyed by the autoincrement integer
primary key (models.py line 14), plus the next id the autoincrement
counter will hand out. -/
structure Store where
  rows : List (Nat × Rec) := []
  nextId : Nat := 1
deriving DecidableEq, Repr

/-- Embedding of `DownloadDB.update_status` (db.py lines 88-101): set the
status of the row with the given id, when present. -/
def Store.update_status (st : Store) (id : Nat) (s : DownloadStatus) : Store :=
  { st with rows := (st.rows.map
      (fun p => if p.1 == id then (p.1, { p.2 with status := s }) else p)) }

/-- Modelled from the spec: `update_by_status` is invoked by the Manager
(manager.py lines 249, 268, 282, 303) but its definition is absent from
the source tree; the spec describes it as a bulk status update, mapping
every persisted row whose status lies in the old-status set to the new
status. -/
def Store.update_by_status (st : Store) (old : List DownloadStatus)
    (new : DownloadStatus) : Store :=
  { st with rows := (st.rows.map
      (fun p => if old.contains p.2.status then (p.1, { p.2 with status := new }) else p)) }

/-- Embedding of `DownloadDB.delete` (db.py lines 118-129). -/
def Store.delete_row (st : Store) (id : Nat) : Store :=
  { st with rows := st.rows.filter (fun p => ¬ p.1 = id) }

/-- Embedding of `DownloadDB.delete_all` (db.py lines 131-140). -/
def Store.delete_all_rows (st : Store) : Store :=
  { st with rows := [] }

/-- One step of `DownloadDB.upsert_many` (db.py lines 46-61): an item whose
id matches an existing row updates it; otherwise the item is inserted and
the flush makes the autoincrement column assign the id (models.py line 14).
Returns the id appended to the result list. -/
def Store.upsert_one (st : Store) (r : Rec) (idGiven : Option Nat) : Store × Nat :=
  match idGiven with
  | some i =>
    if st.rows.any (fun p => p.1 == i) then
      ({ st with rows := st.rows.map (fun p => if p.1 == i then (i, r) else p) }, i)
    else
      ({ st with rows := st.rows ++ [(i, r)], nextId := max st.nextId (i + 1) }, i)
  | none =>
    ({ st with rows := st.rows ++ [(st.nextId, r)], nextId := st.nextId + 1 },
      st.nextId)

/-- Embedding of `DownloadDB.upsert_many` on its success path (db.py lines
37-64): all items are upserted in one transaction and their ids are
returned in input order. -/
def Store.upsert_many (st : Store) (items : List (Rec × Option Nat)) :
    Store × List Nat :=
  items.foldl
    (fun acc it =>
      let si := acc.1.upsert_one it.1 it.2
      (si.1, acc.2 ++ [si.2]))
    (st, [])

/-- The manager state (manager.py lines 26-50): the registry, the global
pause/cancel/shutdown flags, the save-history switch, the optional store,
and a ghost log of the ids for which `_start_download` dispatched a worker
onto the pool. -/
structure Manager where
  downloads : Registry := []
  pauseAllFlag : Bool := false
  cancelAllFlag : Bool := false
  is_shutdown : Bool := false
  save_history : Bool := false
  db : Option Store := none
  dispatched : List Nat := []
deriving DecidableEq, Repr

/-- Embedding of `DownloadManager.get_downloads` with a status filter
(manager.py lines 352-374), keeping the (id, record) pairs in registry
order. -/
def Manager.get_downloads (m : Manager) (status : List DownloadStatus) :
    List (Nat × Rec) :=
  m.downloads.filter (fun p => status.contains p.2.status)

/-- Embedding of the `_on_status` callback (manager.py lines 155-166):
unknown ids are ignored; otherwise the registry status is updated and,
when history saving is enabled, persisted via `update_status`. -/
def Manager.on_status (m : Manager) (id : Nat) (s : DownloadStatus) : Manager :=
  if m.downloads.any (fun p => p.1 == id) then
    let m2 := { m with downloads := (dictModify m.downloads id
        (fun r => { r with status := s })) }
    if m2.save_history then
      { m2 with db := m2.db.map (fun st => st.update_status id s) }
    else m2
  else m

/-- Embedding of `_start_download` (manager.py lines 208-227): for a known
id, a fresh worker is attached to the record and started on the pool. -/
def Manager.start_download (m : Manager) (id : Nat) : Manager :=
  if m.downloads.any (fun p => p.1 == id) then
    { m with
      downloads := dictModify m.downloads id (fun r => { r with hasWorker := true })
      dispatched := m.dispatched ++ [id] }
  else m

/-- Embedding of `DownloadManager.pause` (manager.py lines 185-188): a live
worker's `pause()` sets its pause flag and fires the PAUSED status
callback; with no worker the call is a no-op. -/
def Manager.pause_one (m : Manager) (id : Nat) : Manager :=
  match List.lookup id m.downloads with
  | some r => if r.hasWorker then m.on_status id DownloadStatus.PAUSED else m
  | none => m

/-- Embedding of `DownloadManager.resume` (manager.py lines 190-196): a
live worker's `resume()` wakes it and fires the DOWNLOADING status
callback; with no worker a fresh worker is started. -/
def Manager.resume_one (m : Manager) (id : Nat) : Manager :=
  match List.lookup id m.downloads with
  | some r =>
    if r.hasWorker then m.on_status id DownloadStatus.DOWNLOADING
    else m.start_download id
  | none => m.start_download id

/-- One iteration of the `start()` loop (manager.py lines 140-150):
dispatch a worker for a PENDING record that has no running worker. -/
def Manager.startStep (acc : Manager) (id : Nat) : Manager :=
  match List.lookup id acc.downloads with
  | none => acc
  | some r =>
    if r.status ≠ DownloadStatus.PENDING then acc
    else if r.hasWorker ∧ r.workerRunning then acc
    else acc.start_download id

/-- Embedding of `DownloadManager.start` (manager.py lines 136-150):
dispatch a worker for every PENDING record that has no running worker. -/
def Manager.start (m : Manager) : Manager :=
  (m.downloads.map Prod.fst).foldl Manager.startStep m

/-- Embedding of `DownloadManager.restart` (manager.py lines 229-242):
status back to PENDING, `downloaded_bytes` reset to 0, status persisted
when history saving is enabled, worker re-dispatched. -/
def Manager.restart (m : Manager) (id : Nat) : Manager :=
  match List.lookup id m.downloads with
  | none => m
  | some _ =>
    let m1 := { m with downloads := (dictModify m.downloads id
        (fun r => { r with status := DownloadStatus.PENDING, downloaded_bytes := 0 })) }
    let m2 := if m1.save_history then
        { m1 with db := (m1.db.map
            (fun st => st.update_status id DownloadStatus.PENDING)) }
      else m1
    m2.start_download id

/-- One iteration of the `restart_all()` loop (manager.py lines 308-310):
set the record's status to PENDING, then re-dispatch a worker. -/
def Manager.restartAllStep (acc : Manager) (id : Nat) : Manager :=
  let a2 := { acc with downloads := (dictModify acc.downloads id
      (fun r => { r with status := DownloadStatus.PENDING })) }
  a2.start_download id

/-- Embedding of `DownloadManager.restart_all` (manager.py lines 299-310):
persist a bulk CANCELLED/ERROR to PENDING update, then for every
CANCELLED/ERROR record set the status to PENDING and re-dispatch. -/
def Manager.restart_all (m : Manager) : Manager :=
  let m1 := if m.save_history then
      { m with db := (m.db.map
          (fun st => st.update_by_status
            [DownloadStatus.CANCELLED, DownloadStatus.ERROR] DownloadStatus.PENDING)) }
    else m
  ((m1.get_downloads [DownloadStatus.CANCELLED, DownloadStatus.ERROR]).map Prod.fst).foldl
    Manager.restartAllStep m1

/-- One iteration of the second `pause_all()` loop (manager.py lines
257-258): mark the record PAUSED in memory. -/
def Manager.pauseMarkStep (acc : Manager) (id : Nat) : Manager :=
  { acc with downloads := (dictModify acc.downloads id
      (fun r => { r with status := DownloadStatus.PAUSED })) }

/-- Embedding of `DownloadManager.pause_all` (manager.py lines 244-258):
set the global pause flag, persist a bulk DOWNLOADING/PENDING to PAUSED
update, pause every DOWNLOADING item's worker, then mark every remaining
DOWNLOADING/PENDING record PAUSED in memory. -/
def Manager.pause_all (m : Manager) : Manager :=
  let m1 := { m with pauseAllFlag := true }
  let m2 := if m1.save_history then
      { m1 with db := (m1.db.map
          (fun st => st.update_by_status
            [DownloadStatus.DOWNLOADING, DownloadStatus.PENDING] DownloadStatus.PAUSED)) }
    else m1
  let m3 := ((m2.get_downloads [DownloadStatus.DOWNLOADING]).map Prod.fst).foldl
    Manager.pause_one m2
  ((m3.get_downloads [DownloadStatus.DOWNLOADING, DownloadStatus.PENDING]).map Prod.fst).foldl
    Manager.pauseMarkStep m3

/-- One iteration of the `resume_all()` loop (manager.py lines 263-265):
resume the item (live worker or fresh one), then mark it PENDING. -/
def Manager.resumeAllStep (acc : Manager) (id : Nat) : Manager :=
  let a2 := acc.resume_one id
  { a2 with downloads := (dictModify a2.downloads id
      (fun r => { r with status := DownloadStatus.PENDING })) }

/-- Embedding of `DownloadManager.resume_all` (manager.py lines 260-271):
clear the global pause flag, resume every PAUSED item (live worker or
fresh one) and set its in-memory status to PENDING, then persist a bulk
PAUSED to PENDING update. -/
def Manager.resume_all (m : Manager) : Manager :=
  let m1 := { m with pauseAllFlag := false }
  let m2 := ((m1.get_downloads [DownloadStatus.PAUSED]).map Prod.fst).foldl
    Manager.resumeAllStep m1
  if m2.save_history then
    { m2 with db := (m2.db.map
        (fun st => st.update_by_status [DownloadStatus.PAUSED] DownloadStatus.PENDING)) }
  else m2

/-- One iteration of the `resume_interrupted_downloads()` loop
(manager.py lines 392-396): demote the record to PENDING in memory and
persist the new status when history saving is enabled. -/
def Manager.demoteStep (acc : Manager) (id : Nat) : Manager :=
  let a2 := { acc with downloads := (dictModify acc.downloads id
      (fun r => { r with status := DownloadStatus.PENDING })) }
  if a2.save_history then
    { a2 with db := (a2.db.map
        (fun st => st.update_status id DownloadStatus.PENDING)) }
  else a2

/-- Embedding of `DownloadManager.resume_interrupted_downloads`
(manager.py lines 381-404): every DOWNLOADING or PENDING record is set to
PENDING (persisting the new status when history saving is enabled), then
`start()` processes the queue. -/
def Manager.resume_interrupted_downloads (m : Manager) : Manager :=
  let m2 := ((m.get_downloads
      [DownloadStatus.DOWNLOADING, DownloadStatus.PENDING]).map Prod.fst).foldl
    Manager.demoteStep m
  m2.start

/-- A request dictionary handed to `add_new_downloads`: it must carry a
`url` and may carry arbitrary further keys; the optional fields model the
keys whose presence overrides the defaults through the `**entry` merge in
manager.py line 97 (the merge puts the entry last, so its keys win). -/
structure Entry where
  url : String
  idGiven : Option Nat := none
  statusGiven : Option DownloadStatus := none
  downloadedGiven : Option Nat := none
  totalGiven : Option Nat := none
  filenameGiven : Option String := none
  folderGiven : Option String := none
deriving DecidableEq, Repr

/-- Embedding of `os.path.basename`: the component after the last slash. -/
def basename (p : String) : String :=
  (p.splitOn "/").getLastD ""

/-- Embedding of the item construction in `add_new_downloads` (manager.py
lines 89-98): defaults filename/folder/status/byte counters, then merges
`**entry` last so any of the entry's own keys override the defaults. -/
def buildItem (folder : String) (e : Entry) : Rec :=
  { url := e.url
    filename := e.filenameGiven.getD (basename e.url)
    folder_path := e.folderGiven.getD folder
    status := e.statusGiven.getD DownloadStatus.PENDING
    downloaded_bytes := e.downloadedGiven.getD 0
    total_bytes := e.totalGiven.getD 0 }

/-- The registry-population loop of `add_new_downloads` (manager.py lines
108-118): the id is the generated one when the db produced enough ids,
otherwise `len(self._downloads) + 1 + index` — evaluated against the LIVE
dict length, which grows as earlier iterations insert. -/
def addLoop (downloads : Registry) (genIds : List Nat) (index : Nat) :
    List Rec → Registry
  | [] => downloads
  | r :: rest =>
    let id := if genIds ≠ [] ∧ index < genIds.length then genIds.getD index 0
      else downloads.length + 1 + index
    addLoop (dictSet downloads id r) genIds (index + 1) rest

/-- Embedding of `DownloadManager.add_new_downloads` (manager.py lines
80-123): build the item records, batch-upsert them when a store is
configured and history saving is on (obtaining the generated ids), then
populate the registry. -/
def Manager.add_new_downloads (m : Manager) (entries : List Entry)
    (folder : String) : Manager :=
  let items := entries.map (buildItem folder)
  match m.db, m.save_history with
  | some st, true =>
    let r := st.upsert_many (List.zip items (entries.map Entry.idGiven))
    { m with db := some r.1, downloads := addLoop m.downloads r.2 0 items }
  | _, _ =>
    { m with downloads := addLoop m.downloads [] 0 items }

/-- Destination path `folder_path/filename` of a record (worker.py line
27, manager.py line 320). -/
def finalPath (r : Rec) : String :=
  r.folder_path ++ "/" ++ r.filename

/-- In-flight temp path `final_path + ".part"` (worker.py line 28). -/
def tempPath (r : Rec) : String :=
  finalPath r ++ ".part"

/-- The filesystem as the list of paths currently present; `unlink` with
`missing_ok=True` removes a path when present and is a no-op otherwise. -/
def unlink (fs : List String) (p : String) : List String :=
  fs.filter (fun q => ¬ q = p)

/-- Embedding of `DownloadManager.delete` (manager.py lines 312-327): for
a known id, cancel a live worker if one exists (which deletes the temp
file and fires the CANCELLED callback), delete the persisted row when
history saving is enabled, unlink the destination file when requested,
and remove the record from the registry. -/
def Manager.delete_item (m : Manager) (fs : List String) (id : Nat)
    (delete_file : Bool) : Manager × List String :=
  match List.lookup id m.downloads with
  | none => (m, fs)
  | some r =>
    let mfs1 : Manager × List String :=
      if r.hasWorker then
        (m.on_status id DownloadStatus.CANCELLED, unlink fs (tempPath r))
      else (m, fs)
    let m2 := if mfs1.1.save_history then
        { mfs1.1 with db := (mfs1.1.db.map (fun st => st.delete_row id)) }
      else mfs1.1
    let fs2 := if delete_file then unlink mfs1.2 (finalPath r) else mfs1.2
    ({ m2 with downloads := dictDel m2.downloads id }, fs2)

/-- Embedding of `DownloadManager.delete_all` (manager.py lines 335-346):
clear the store when one is configured, unlink every record's destination
file when requested, and empty the registry.  No worker is cancelled and
no temp file is touched. -/
def Manager.delete_all (m : Manager) (fs : List String)
    (delete_files : Bool) : Manager × List String :=
  let m1 := { m with db := m.db.map Store.delete_all_rows }
  let fs2 := if delete_files then
      m.downloads.foldl (fun acc p => unlink acc (finalPath p.2)) fs
    else fs
  ({ m1 with downloads := [] }, fs2)

/-! ## Registry and fold lemmas -/

lemma lookup_cons_self (p : Nat × Rec) (rest : Registry) :
    List.lookup p.1 (p :: rest) = some p.2 := by
  rw [List.lookup]
  simp

lemma lookup_cons_ne {j : Nat} (p : Nat × Rec) (rest : Registry)
    (h : j ≠ p.1) : List.lookup j (p :: rest) = List.lookup j rest := by
  rw [List.lookup]
  simp [beq_false_of_ne h]

lemma lookup_dictModify (m : Registry) (k j : Nat) (f : Rec → Rec) :
    List.lookup j (dictModify m k f) =
      if j = k then (List.lookup j m).map f else List.lookup j m := by
  induction m with
  | nil => by_cases hjk : j = k <;> simp [dictModify, List.lookup, hjk]
  | cons p rest ih =>
    have hd : dictModify (p :: rest) k f =
        (if (p.1 == k) = true then (p.1, f p.2) else p) :: dictModify rest k f := rfl
    by_cases hpk : p.1 = k <;> by_cases hjp : j = p.1
    · rw [hd, if_pos (by simpa using hpk)]
      have hjk : j = k := hjp.trans hpk
      rw [if_pos hjk]
      have h1 : List.lookup j ((p.1, f p.2) :: dictModify rest k f) = some (f p.2) :=
        hjp ▸ lookup_cons_self (p.1, f p.2) _
      rw [h1, hjp, lookup_cons_self p rest]
      rfl
    · rw [hd, if_pos (by simpa using hpk)]
      have hjk : j ≠ k := fun h => hjp (h.trans hpk.symm)
      rw [if_neg hjk]
      rw [lookup_cons_ne (p.1, f p.2) _ hjp, lookup_cons_ne p rest hjp, ih, if_neg hjk]
    · rw [hd, if_neg (by simpa using hpk)]
      have hjk : j ≠ k := fun h => hpk (hjp ▸ h)
      rw [if_neg hjk, hjp, lookup_cons_self p _, lookup_cons_self p rest]
    · rw [hd, if_neg (by simpa using hpk)]
      rw [lookup_cons_ne p _ hjp, lookup_cons_ne p rest hjp, ih]

lemma keys_dictModify (m : Registry) (k : Nat) (f : Rec → Rec) :
    (dictModify m k f).map Prod.fst = m.map Prod.fst := by
  induction m with
  | nil => rfl
  | cons p rest ih =>
    have hd : dictModify (p :: rest) k f =
        (if (p.1 == k) = true then (p.1, f p.2) else p) :: dictModify rest k f := rfl
    rw [hd]
    by_cases hpk : p.1 = k
    · rw [if_pos (by simpa using hpk)]
      simp [ih]
    · rw [if_neg (by simpa using hpk)]
      simp [ih]

lemma lookup_mem {m : Registry} {j : Nat} {r : Rec}
    (h : List.lookup j m = some r) : (j, r) ∈ m := by
  induction m with
  | nil => simp [List.lookup] at h
  | cons p rest ih =>
    by_cases hj : j = p.1
    · rw [hj, lookup_cons_self p rest] at h
      have hr : r = p.2 := by injection h with h2; exact h2.symm
      rw [hj, hr, Prod.mk.eta]
      exact List.mem_cons_self _ _
    · rw [lookup_cons_ne p rest hj] at h
      exact List.mem_cons_of_mem _ (ih h)

lemma lookup_of_mem_keys {m : Registry} {j : Nat}
    (h : j ∈ m.map Prod.fst) : ∃ r, List.lookup j m = some r := by
  induction m with
  | nil => simp at h
  | cons p rest ih =>
    by_cases hj : j = p.1
    · exact ⟨p.2, hj ▸ lookup_cons_self p rest⟩
    · rw [List.map_cons, List.mem_cons] at h
      rcases h with h | h
      · exact absurd h hj
      · rcases ih h with ⟨r, hr⟩
        exact ⟨r, (lookup_cons_ne p rest hj).trans hr⟩

lemma lookup_of_mem_nodup {m : Registry} {j : Nat} {r : Rec}
    (hnd : (m.map Prod.fst).Nodup) (h : (j, r) ∈ m) :
    List.lookup j m = some r := by
  induction m with
  | nil => simp at h
  | cons p rest ih =>
    rw [List.map_cons, List.nodup_cons] at hnd
    rcases List.mem_cons.mp h with h | h
    · rw [← h]
      exact lookup_cons_self (j, r) rest
    · have hne : j ≠ p.1 := by
        intro hj
        exact hnd.1 (hj ▸ List.mem_map_of_mem Prod.fst h)
      rw [lookup_cons_ne p rest hne]
      exact ih hnd.2 h

lemma any_key_iff (m : Registry) (j : Nat) :
    m.any (fun p => p.1 == j) = true ↔ j ∈ m.map Prod.fst := by
  rw [List.any_eq_true]
  constructor
  · rintro ⟨p, hp, he⟩
    exact List.mem_map.mpr ⟨p, hp, by simpa using he⟩
  · intro h
    rcases List.mem_map.mp h with ⟨p, hp, he⟩
    exact ⟨p, hp, by simpa using he⟩

/-- Membership in the id list produced by `get_downloads` over a
registry with unique keys. -/
lemma mem_getDownloads_ids {m : Manager} {S : List DownloadStatus} {j : Nat}
    (hnd : (m.downloads.map Prod.fst).Nodup) :
    j ∈ (m.get_downloads S).map Prod.fst ↔
      ∃ r, List.lookup j m.downloads = some r ∧ S.contains r.status = true := by
  constructor
  · intro h
    rcases List.mem_map.mp h with ⟨p, hp, hpj⟩
    rcases List.mem_filter.mp hp with ⟨hpm, hps⟩
    exact ⟨p.2, by rw [← hpj]; exact lookup_of_mem_nodup hnd hpm, hps⟩
  · rintro ⟨r, hr, hs⟩
    exact List.mem_map.mpr ⟨(j, r),
      List.mem_filter.mpr ⟨lookup_mem hr, hs⟩, rfl⟩

lemma getDownloads_ids_nodup {m : Manager} {S : List DownloadStatus}
    (hnd : (m.downloads.map Prod.fst).Nodup) :
    ((m.get_downloads S).map Prod.fst).Nodup :=
  ((List.filter_sublist m.downloads).map Prod.fst).nodup hnd

/-- Frame lemma: folding per-id steps over ids not containing `j` leaves
the record under `j` unchanged. -/
lemma foldl_lookup_notmem (f : Manager → Nat → Manager) (j : Nat)
    (hf : ∀ m i, j ≠ i → List.lookup j (f m i).downloads = List.lookup j m.downloads) :
    ∀ (ids : List Nat) (m : Manager), j ∉ ids →
      List.lookup j (ids.foldl f m).downloads = List.lookup j m.downloads := by
  intro ids
  induction ids with
  | nil => intro m _; rfl
  | cons i rest ih =>
    intro m hj
    rw [List.foldl_cons, ih _ (fun h => hj (List.mem_cons_of_mem _ h))]
    exact hf m i (fun h => hj (h ▸ List.mem_cons_self _ _))

lemma foldl_dispatch_mono (f : Manager → Nat → Manager) (x : Nat)
    (hf : ∀ m i, x ∈ m.dispatched → x ∈ (f m i).dispatched) :
    ∀ (ids : List Nat) (m : Manager), x ∈ m.dispatched →
      x ∈ (ids.foldl f m).dispatched := by
  intro ids
  induction ids with
  | nil => intro m h; exact h
  | cons i rest ih =>
    intro m h
    exact ih _ (hf m i h)

/-- Main per-id fold lemma: when the step for `j` itself rewrites the
record through `g` (and, when `D` holds, dispatches `j`), and every other
step leaves `j` alone, the whole fold rewrites `j`'s record through `g`. -/
lemma foldl_process (f : Manager → Nat → Manager) (g : Rec → Rec) (j : Nat)
    (rec : Rec) (D : Prop)
    (hframe : ∀ m i, j ≠ i → List.lookup j (f m i).downloads = List.lookup j m.downloads)
    (hmono : ∀ m i x, x ∈ m.dispatched → x ∈ (f m i).dispatched)
    (hstep : ∀ m, List.lookup j m.downloads = some rec →
      List.lookup j (f m j).downloads = some (g rec) ∧ (D → j ∈ (f m j).dispatched)) :
    ∀ (ids : List Nat) (m : Manager), ids.Nodup → j ∈ ids →
      List.lookup j m.downloads = some rec →
      List.lookup j (ids.foldl f m).downloads = some (g rec) ∧
      (D → j ∈ (ids.foldl f m).dispatched) := by
  intro ids
  induction ids with
  | nil => intro m _ hj; exact absurd hj (List.not_mem_nil j)
  | cons i rest ih =>
    intro m hnd hj hl
    rw [List.foldl_cons]
    by_cases hji : j = i
    · subst hji
      have hs := hstep m hl
      have hnotin : j ∉ rest := (List.nodup_cons.mp hnd).1
      refine ⟨?_, ?_⟩
      · rw [foldl_lookup_notmem f j hframe rest _ hnotin]
        exact hs.1
      · intro hD
        exact foldl_dispatch_mono f j (fun m2 i2 => hmono m2 i2 j) rest _ (hs.2 hD)
    · have hmem : j ∈ rest := by
        rcases List.mem_cons.mp hj with h | h
        · exact absurd h hji
        · exact h
      exact ih _ (List.nodup_cons.mp hnd).2 hmem ((hframe m i hji).trans hl)

/-- Pointwise byte preservation through a fold of per-id steps. -/
lemma foldl_bytes_kept (f : Manager → Nat → Manager)
    (hf : ∀ m i j rec, List.lookup j m.downloads = some rec →
      ∃ rec2, List.lookup j (f m i).downloads = some rec2 ∧
        rec2.downloaded_bytes = rec.downloaded_bytes ∧
        rec2.total_bytes = rec.total_bytes) :
    ∀ (ids : List Nat) (m : Manager) (j : Nat) (rec : Rec),
      List.lookup j m.downloads = some rec →
      ∃ rec2, List.lookup j (ids.foldl f m).downloads = some rec2 ∧
        rec2.downloaded_bytes = rec.downloaded_bytes ∧
        rec2.total_bytes = rec.total_bytes := by
  intro ids
  induction ids with
  | nil => intro m j rec h; exact ⟨rec, h, rfl, rfl⟩
  | cons i rest ih =>
    intro m j rec h
    rcases hf m i j rec h with ⟨rec2, h2, hb2, ht2⟩
    rcases ih _ j rec2 h2 with ⟨rec3, h3, hb3, ht3⟩
    exact ⟨rec3, h3, hb3.trans hb2, ht3.trans ht2⟩

lemma foldl_keys (f : Manager → Nat → Manager)
    (hf : ∀ m i, (f m i).downloads.map Prod.fst = m.downloads.map Prod.fst) :
    ∀ (ids : List Nat) (m : Manager),
      (ids.foldl f m).downloads.map Prod.fst = m.downloads.map Prod.fst := by
  intro ids
  induction ids with
  | nil => intro m; rfl
  | cons i rest ih =>
    intro m
    rw [List.foldl_cons, ih, hf]

/-- The status row stored for an id, when a store is configured. -/
def rowLookup (j : Nat) (m : Manager) : Option Rec :=
  m.db.bind (fun st => List.lookup j st.rows)

lemma foldl_row_notmem (f : Manager → Nat → Manager) (j : Nat)
    (hf : ∀ m i, j ≠ i → rowLookup j (f m i) = rowLookup j m) :
    ∀ (ids : List Nat) (m : Manager), j ∉ ids →
      rowLookup j (ids.foldl f m) = rowLookup j m := by
  intro ids
  induction ids with
  | nil => intro m _; rfl
  | cons i rest ih =>
    intro m hj
    rw [List.foldl_cons, ih _ (fun h => hj (List.mem_cons_of_mem _ h))]
    exact hf m i (fun h => hj (h ▸ List.mem_cons_self _ _))

lemma foldl_save_history (f : Manager → Nat → Manager)
    (hf : ∀ m i, (f m i).save_history = m.save_history) :
    ∀ (ids : List Nat) (m : Manager),
      (ids.foldl f m).save_history = m.save_history := by
  intro ids
  induction ids with
  | nil => intro m; rfl
  | cons i rest ih =>
    intro m
    rw [List.foldl_cons, ih, hf]

/-- Per-id fold lemma for the persisted rows. -/
lemma foldl_row_process (f : Manager → Nat → Manager) (gs : Rec → Rec)
    (j : Nat) (row : Rec)
    (hsv : ∀ m i, (f m i).save_history = m.save_history)
    (hframe : ∀ m i, j ≠ i → rowLookup j (f m i) = rowLookup j m)
    (hlframe : ∀ m i, j ≠ i →
      List.lookup j (f m i).downloads = List.lookup j m.downloads)
    (hstep : ∀ m rec, m.save_history = true →
      List.lookup j m.downloads = some rec → rowLookup j m = some row →
      rowLookup j (f m j) = some (gs row)) :
    ∀ (ids : List Nat) (m : Manager) (rec : Rec), ids.Nodup → j ∈ ids →
      m.save_history = true →
      List.lookup j m.downloads = some rec → rowLookup j m = some row →
      rowLookup j (ids.foldl f m) = some (gs row) := by
  intro ids
  induction ids with
  | nil => intro m rec _ hj; exact absurd hj (List.not_mem_nil j)
  | cons i rest ih =>
    intro m rec hnd hj hsave hl hrow
    rw [List.foldl_cons]
    by_cases hji : j = i
    · subst hji
      have hnotin : j ∉ rest := (List.nodup_cons.mp hnd).1
      rw [foldl_row_notmem f j hframe rest _ hnotin]
      exact hstep m rec hsave hl hrow
    · have hmem : j ∈ rest := by
        rcases List.mem_cons.mp hj with h | h
        · exact absurd h hji
        · exact h
      exact ih _ rec (List.nodup_cons.mp hnd).2 hmem ((hsv m i).trans hsave)
        ((hlframe m i hji).trans hl) ((hframe m i hji).trans hrow)

/-! ## Per-operation characterization lemmas -/

lemma store_update_status_rows (st : Store) (id : Nat) (s : DownloadStatus) :
    (st.update_status id s).rows =
      dictModify st.rows id (fun r => { r with status := s }) := rfl

lemma lookup_none_of_not_any {m : Registry} {j : Nat}
    (h : ¬ m.any (fun p => p.1 == j) = true) : List.lookup j m = none := by
  cases hl : List.lookup j m with
  | none => rfl
  | some r =>
    exact absurd ((any_key_iff _ _).mpr
      (List.mem_map_of_mem Prod.fst (lookup_mem hl))) h

lemma start_download_eq (m : Manager) (i : Nat) :
    m.start_download i =
      if m.downloads.any (fun p => p.1 == i) then
        { m with
          downloads := (dictModify m.downloads i (fun r => { r with hasWorker := true }))
          dispatched := m.dispatched ++ [i] }
      else m := rfl

lemma on_status_eq (m : Manager) (i : Nat) (s : DownloadStatus) :
    m.on_status i s =
      { m with
        downloads := (if m.downloads.any (fun p => p.1 == i) then
            dictModify m.downloads i (fun r => { r with status := s })
          else m.downloads)
        db := (if m.downloads.any (fun p => p.1 == i) ∧ m.save_history = true then
            m.db.map (fun st => st.update_status i s)
          else m.db) } := by
  unfold Manager.on_status
  by_cases hany : m.downloads.any (fun p => p.1 == i) = true
  · rw [if_pos hany]
    by_cases hsv : m.save_history = true
    · simp [hsv, hany]
    · simp [hsv, hany]
  · rw [if_neg hany]
    simp [hany]

lemma demoteStep_eq (m : Manager) (i : Nat) :
    Manager.demoteStep m i =
      { m with
        downloads := (dictModify m.downloads i
          (fun r => { r with status := DownloadStatus.PENDING }))
        db := (if m.save_history = true then
            m.db.map (fun st => st.update_status i DownloadStatus.PENDING)
          else m.db) } := by
  unfold Manager.demoteStep
  by_cases hsv : m.save_history = true
  · simp [hsv]
  · simp [hsv]

lemma startStep_eq (m : Manager) (i : Nat) (rec : Rec)
    (hl : List.lookup i m.downloads = some rec) :
    Manager.startStep m i =
      if rec.status ≠ DownloadStatus.PENDING then m
      else if rec.hasWorker ∧ rec.workerRunning then m
      else m.start_download i := by
  unfold Manager.startStep
  rw [hl]

lemma startStep_eq_none (m : Manager) (i : Nat)
    (hl : List.lookup i m.downloads = none) : Manager.startStep m i = m := by
  unfold Manager.startStep
  rw [hl]

lemma start_download_downloads (m : Manager) (i j : Nat) :
    List.lookup j (m.start_download i).downloads =
      if j = i then
        (List.lookup j m.downloads).map (fun r => { r with hasWorker := true })
      else List.lookup j m.downloads := by
  rw [start_download_eq]
  by_cases hany : m.downloads.any (fun p => p.1 == i) = true
  · rw [if_pos hany]
    simp [lookup_dictModify]
  · rw [if_neg hany]
    by_cases hj : j = i
    · subst hj
      simp [lookup_none_of_not_any hany]
    · simp [hj]

lemma start_download_keys (m : Manager) (i : Nat) :
    (m.start_download i).downloads.map Prod.fst = m.downloads.map Prod.fst := by
  rw [start_download_eq]
  split
  · simp [keys_dictModify]
  · rfl

lemma start_download_disp_mono (m : Manager) (i x : Nat)
    (h : x ∈ m.dispatched) : x ∈ (m.start_download i).dispatched := by
  rw [start_download_eq]
  split <;> simp [h]

lemma start_download_disp_self (m : Manager) (i : Nat)
    (h : i ∈ m.downloads.map Prod.fst) :
    i ∈ (m.start_download i).dispatched := by
  rw [start_download_eq, if_pos ((any_key_iff _ _).mpr h)]
  simp

lemma start_download_db (m : Manager) (i : Nat) :
    (m.start_download i).db = m.db := by
  rw [start_download_eq]
  split <;> rfl

lemma start_download_save (m : Manager) (i : Nat) :
    (m.start_download i).save_history = m.save_history := by
  rw [start_download_eq]
  split <;> rfl

lemma on_status_downloads (m : Manager) (i : Nat) (s : DownloadStatus) (j : Nat) :
    List.lookup j (m.on_status i s).downloads =
      if j = i then
        (List.lookup j m.downloads).map (fun r => { r with status := s })
      else List.lookup j m.downloads := by
  rw [on_status_eq]
  by_cases hany : m.downloads.any (fun p => p.1 == i) = true
  · simp only [if_pos hany]
    simp [lookup_dictModify]
  · simp only [if_neg hany]
    by_cases hj : j = i
    · subst hj
      simp [lookup_none_of_not_any hany]
    · simp [hj]

lemma on_status_keys (m : Manager) (i : Nat) (s : DownloadStatus) :
    (m.on_status i s).downloads.map Prod.fst = m.downloads.map Prod.fst := by
  rw [on_status_eq]
  by_cases hany : m.downloads.any (fun p => p.1 == i) = true
  · simp only [if_pos hany]
    simp [keys_dictModify]
  · simp only [if_neg hany]

lemma on_status_dispatched (m : Manager) (i : Nat) (s : DownloadStatus) :
    (m.on_status i s).dispatched = m.dispatched := by
  rw [on_status_eq]

lemma on_status_save (m : Manager) (i : Nat) (s : DownloadStatus) :
    (m.on_status i s).save_history = m.save_history := by
  rw [on_status_eq]

lemma on_status_row_ne (m : Manager) (i : Nat) (s : DownloadStatus) (j : Nat)
    (hj : j ≠ i) : rowLookup j (m.on_status i s) = rowLookup j m := by
  rw [on_status_eq]
  unfold rowLookup
  by_cases hc : m.downloads.any (fun p => p.1 == i) = true ∧ m.save_history = true
  · simp only [if_pos hc]
    cases m.db with
    | none => rfl
    | some st =>
      simp [store_update_status_rows, lookup_dictModify, hj]
  · simp only [if_neg hc]

/-- The registry effect of each per-id step is a key-preserving record
rewrite that can only change `status` and `hasWorker`. -/
def BytesLike (f : Rec → Rec) : Prop :=
  ∀ r, (f r).downloaded_bytes = r.downloaded_bytes ∧
    (f r).total_bytes = r.total_bytes

/-- A per-id step whose registry effect rewrites only the record under the
given id, through some byte-preserving function. -/
def StepShape (S : Manager → Nat → Manager) : Prop :=
  ∀ m i, ∃ f : Rec → Rec, BytesLike f ∧
    ∀ j, List.lookup j (S m i).downloads =
      if j = i then (List.lookup j m.downloads).map f
      else List.lookup j m.downloads

lemma stepShape_frame {S : Manager → Nat → Manager} (h : StepShape S) :
    ∀ m i j, j ≠ i →
      List.lookup j (S m i).downloads = List.lookup j m.downloads := by
  intro m i j hj
  rcases h m i with ⟨f, _, hf⟩
  rw [hf j, if_neg hj]

lemma stepShape_bytes {S : Manager → Nat → Manager} (h : StepShape S) :
    ∀ m i j rec, List.lookup j m.downloads = some rec →
      ∃ rec2, List.lookup j (S m i).downloads = some rec2 ∧
        rec2.downloaded_bytes = rec.downloaded_bytes ∧
        rec2.total_bytes = rec.total_bytes := by
  intro m i j rec hl
  rcases h m i with ⟨f, hb, hf⟩
  by_cases hj : j = i
  · exact ⟨f rec, by rw [hf j, if_pos hj, hl]; rfl, (hb rec).1, (hb rec).2⟩
  · exact ⟨rec, by rw [hf j, if_neg hj]; exact hl, rfl, rfl⟩

lemma demoteStep_shape : StepShape Manager.demoteStep := by
  intro m i
  refine ⟨fun r => { r with status := DownloadStatus.PENDING },
    fun r => ⟨rfl, rfl⟩, fun j => ?_⟩
  rw [demoteStep_eq]
  simp [lookup_dictModify]

lemma demoteStep_keys (m : Manager) (i : Nat) :
    (Manager.demoteStep m i).downloads.map Prod.fst = m.downloads.map Prod.fst := by
  rw [demoteStep_eq]
  simp [keys_dictModify]

lemma demoteStep_save (m : Manager) (i : Nat) :
    (Manager.demoteStep m i).save_history = m.save_history := by
  rw [demoteStep_eq]

lemma demoteStep_dispatched (m : Manager) (i : Nat) :
    (Manager.demoteStep m i).dispatched = m.dispatched := by
  rw [demoteStep_eq]

lemma demoteStep_row_ne (m : Manager) (i j : Nat) (hj : j ≠ i) :
    rowLookup j (Manager.demoteStep m i) = rowLookup j m := by
  rw [demoteStep_eq]
  unfold rowLookup
  by_cases hsv : m.save_history = true
  · simp only [if_pos hsv]
    cases m.db with
    | none => rfl
    | some st =>
      simp [store_update_status_rows, lookup_dictModify, hj]
  · simp only [if_neg hsv]

lemma demoteStep_lookup_self (m : Manager) (i : Nat) (rec : Rec)
    (h : List.lookup i m.downloads = some rec) :
    List.lookup i (Manager.demoteStep m i).downloads =
      some { rec with status := DownloadStatus.PENDING } := by
  rw [demoteStep_eq]
  simp [lookup_dictModify, h]

lemma demoteStep_row_self (m : Manager) (i : Nat) (row : Rec)
    (hsave : m.save_history = true) (hrow : rowLookup i m = some row) :
    rowLookup i (Manager.demoteStep m i) =
      some { row with status := DownloadStatus.PENDING } := by
  rw [demoteStep_eq]
  unfold rowLookup at hrow ⊢
  rw [if_pos hsave]
  cases hdb : m.db with
  | none =>
    rw [hdb] at hrow
    simp at hrow
  | some st =>
    rw [hdb] at hrow
    simp only [Option.some_bind] at hrow
    simp [store_update_status_rows, lookup_dictModify, hrow]

lemma startStep_shape : StepShape Manager.startStep := by
  intro m i
  cases hl : List.lookup i m.downloads with
  | none =>
    refine ⟨id, fun r => ⟨rfl, rfl⟩, fun j => ?_⟩
    rw [startStep_eq_none m i hl]
    by_cases hj : j = i
    · subst hj
      simp [hl]
    · simp [hj]
  | some r =>
    rw [startStep_eq m i r hl]
    by_cases h1 : r.status ≠ DownloadStatus.PENDING
    · rw [if_pos h1]
      refine ⟨id, fun q => ⟨rfl, rfl⟩, fun j => ?_⟩
      by_cases hj : j = i
      · subst hj
        simp [hl]
      · simp [hj]
    · rw [if_neg h1]
      by_cases h2 : r.hasWorker ∧ r.workerRunning
      · rw [if_pos h2]
        refine ⟨id, fun q => ⟨rfl, rfl⟩, fun j => ?_⟩
        by_cases hj : j = i
        · subst hj
          simp [hl]
        · simp [hj]
      · rw [if_neg h2]
        refine ⟨fun q => { q with hasWorker := true }, fun q => ⟨rfl, rfl⟩,
          fun j => ?_⟩
        rw [start_download_downloads]

lemma startStep_keys (m : Manager) (i : Nat) :
    (Manager.startStep m i).downloads.map Prod.fst = m.downloads.map Prod.fst := by
  cases hl : List.lookup i m.downloads with
  | none => rw [startStep_eq_none m i hl]
  | some r =>
    rw [startStep_eq m i r hl]
    split
    · rfl
    · split
      · rfl
      · exact start_download_keys m i

lemma startStep_save (m : Manager) (i : Nat) :
    (Manager.startStep m i).save_history = m.save_history := by
  cases hl : List.lookup i m.downloads with
  | none => rw [startStep_eq_none m i hl]
  | some r =>
    rw [startStep_eq m i r hl]
    split
    · rfl
    · split
      · rfl
      · exact start_download_save m i

lemma startStep_db (m : Manager) (i : Nat) :
    (Manager.startStep m i).db = m.db := by
  cases hl : List.lookup i m.downloads with
  | none => rw [startStep_eq_none m i hl]
  | some r =>
    rw [startStep_eq m i r hl]
    split
    · rfl
    · split
      · rfl
      · exact start_download_db m i

lemma startStep_disp_mono (m : Manager) (i x : Nat)
    (h : x ∈ m.dispatched) : x ∈ (Manager.startStep m i).dispatched := by
  cases hl : List.lookup i m.downloads with
  | none => rw [startStep_eq_none m i hl]; exact h
  | some r =>
    rw [startStep_eq m i r hl]
    split
    · exact h
    · split
      · exact h
      · exact start_download_disp_mono m i x h

lemma startStep_pending (m : Manager) (i : Nat) (rec : Rec)
    (hl : List.lookup i m.downloads = some rec)
    (hst : rec.status = DownloadStatus.PENDING)
    (hw : ¬ (rec.hasWorker ∧ rec.workerRunning)) :
    List.lookup i (Manager.startStep m i).downloads =
      some { rec with hasWorker := true } ∧
    i ∈ (Manager.startStep m i).dispatched := by
  have hkeys : i ∈ m.downloads.map Prod.fst :=
    List.mem_map_of_mem Prod.fst (lookup_mem hl)
  rw [startStep_eq m i rec hl, if_neg (by simp [hst]), if_neg hw]
  exact ⟨by rw [start_download_downloads, if_pos rfl, hl]; rfl,
    start_download_disp_self m i hkeys⟩

lemma startStep_skip (m : Manager) (i : Nat) (rec : Rec)
    (hl : List.lookup i m.downloads = some rec)
    (h : rec.status ≠ DownloadStatus.PENDING ∨ (rec.hasWorker ∧ rec.workerRunning)) :
    List.lookup i (Manager.startStep m i).downloads = some rec := by
  rw [startStep_eq m i rec hl]
  rcases h with h | h
  · rw [if_pos h]
    exact hl
  · by_cases h1 : rec.status ≠ DownloadStatus.PENDING
    · rw [if_pos h1]
      exact hl
    · rw [if_neg h1, if_pos h]
      exact hl

lemma pause_one_eq_some (m : Manager) (i : Nat) (r : Rec)
    (hl : List.lookup i m.downloads = some r) :
    Manager.pause_one m i =
      if r.hasWorker then m.on_status i DownloadStatus.PAUSED else m := by
  unfold Manager.pause_one
  rw [hl]

lemma pause_one_eq_none (m : Manager) (i : Nat)
    (hl : List.lookup i m.downloads = none) : Manager.pause_one m i = m := by
  unfold Manager.pause_one
  rw [hl]

lemma pause_one_shape : StepShape Manager.pause_one := by
  intro m i
  cases hl : List.lookup i m.downloads with
  | none =>
    refine ⟨id, fun r => ⟨rfl, rfl⟩, fun j => ?_⟩
    rw [pause_one_eq_none m i hl]
    by_cases hj : j = i
    · subst hj
      simp [hl]
    · simp [hj]
  | some r =>
    rw [pause_one_eq_some m i r hl]
    by_cases hw : r.hasWorker
    · rw [if_pos hw]
      exact ⟨fun q => { q with status := DownloadStatus.PAUSED },
        fun q => ⟨rfl, rfl⟩, fun j => on_status_downloads m i _ j⟩
    · rw [if_neg hw]
      refine ⟨id, fun q => ⟨rfl, rfl⟩, fun j => ?_⟩
      by_cases hj : j = i
      · subst hj
        simp [hl]
      · simp [hj]

lemma pause_one_keys (m : Manager) (i : Nat) :
    (Manager.pause_one m i).downloads.map Prod.fst = m.downloads.map Prod.fst := by
  cases hl : List.lookup i m.downloads with
  | none => rw [pause_one_eq_none m i hl]
  | some r =>
    rw [pause_one_eq_some m i r hl]
    split
    · exact on_status_keys m i _
    · rfl

lemma pause_one_save (m : Manager) (i : Nat) :
    (Manager.pause_one m i).save_history = m.save_history := by
  cases hl : List.lookup i m.downloads with
  | none => rw [pause_one_eq_none m i hl]
  | some r =>
    rw [pause_one_eq_some m i r hl]
    split
    · exact on_status_save m i _
    · rfl

lemma pause_one_dispatched (m : Manager) (i : Nat) :
    (Manager.pause_one m i).dispatched = m.dispatched := by
  cases hl : List.lookup i m.downloads with
  | none => rw [pause_one_eq_none m i hl]
  | some r =>
    rw [pause_one_eq_some m i r hl]
    split
    · exact on_status_dispatched m i _
    · rfl

lemma pause_one_self (m : Manager) (i : Nat) (rec : Rec)
    (hl : List.lookup i m.downloads = some rec) :
    List.lookup i (Manager.pause_one m i).downloads =
      some (if rec.hasWorker then
        { rec with status := DownloadStatus.PAUSED } else rec) := by
  rw [pause_one_eq_some m i rec hl]
  by_cases hw : rec.hasWorker
  · rw [if_pos hw, if_pos hw, on_status_downloads, if_pos rfl, hl]
    rfl
  · rw [if_neg hw, if_neg hw]
    exact hl

lemma pauseMarkStep_eq (m : Manager) (i : Nat) :
    Manager.pauseMarkStep m i =
      { m with downloads := (dictModify m.downloads i
          (fun r => { r with status := DownloadStatus.PAUSED })) } := rfl

lemma pauseMarkStep_shape : StepShape Manager.pauseMarkStep := by
  intro m i
  refine ⟨fun r => { r with status := DownloadStatus.PAUSED },
    fun r => ⟨rfl, rfl⟩, fun j => ?_⟩
  rw [pauseMarkStep_eq]
  simp [lookup_dictModify]

lemma pauseMarkStep_keys (m : Manager) (i : Nat) :
    (Manager.pauseMarkStep m i).downloads.map Prod.fst = m.downloads.map Prod.fst := by
  rw [pauseMarkStep_eq]
  simp [keys_dictModify]

lemma pauseMarkStep_self (m : Manager) (i : Nat) (rec : Rec)
    (hl : List.lookup i m.downloads = some rec) :
    List.lookup i (Manager.pauseMarkStep m i).downloads =
      some { rec with status := DownloadStatus.PAUSED } := by
  rw [pauseMarkStep_eq]
  simp [lookup_dictModify, hl]

lemma resume_one_eq_some (m : Manager) (i : Nat) (r : Rec)
    (hl : List.lookup i m.downloads = some r) :
    Manager.resume_one m i =
      if r.hasWorker then m.on_status i DownloadStatus.DOWNLOADING
      else m.start_download i := by
  unfold Manager.resume_one
  rw [hl]

lemma resumeAllStep_eq (m : Manager) (i : Nat) :
    Manager.resumeAllStep m i =
      { m.resume_one i with
        downloads := (dictModify (m.resume_one i).downloads i
          (fun r => { r with status := DownloadStatus.PENDING })) } := rfl

lemma resume_one_shape : StepShape Manager.resume_one := by
  intro m i
  cases hl : List.lookup i m.downloads with
  | none =>
    refine ⟨fun q => { q with hasWorker := true }, fun q => ⟨rfl, rfl⟩, fun j => ?_⟩
    unfold Manager.resume_one
    rw [hl]
    exact start_download_downloads m i j
  | some r =>
    rw [resume_one_eq_some m i r hl]
    by_cases hw : r.hasWorker
    · rw [if_pos hw]
      exact ⟨fun q => { q with status := DownloadStatus.DOWNLOADING },
        fun q => ⟨rfl, rfl⟩, fun j => on_status_downloads m i _ j⟩
    · rw [if_neg hw]
      exact ⟨fun q => { q with hasWorker := true }, fun q => ⟨rfl, rfl⟩,
        fun j => start_download_downloads m i j⟩

lemma resumeAllStep_downloads (m : Manager) (i : Nat) :
    (Manager.resumeAllStep m i).downloads =
      dictModify (m.resume_one i).downloads i
        (fun r => { r with status := DownloadStatus.PENDING }) := rfl

lemma resumeAllStep_dispatched_eq (m : Manager) (i : Nat) :
    (Manager.resumeAllStep m i).dispatched = (m.resume_one i).dispatched := rfl

lemma resumeAllStep_shape : StepShape Manager.resumeAllStep := by
  intro m i
  rcases resume_one_shape m i with ⟨f, hb, hf⟩
  refine ⟨fun r => { f r with status := DownloadStatus.PENDING },
    fun q => ⟨(hb q).1, (hb q).2⟩, fun j => ?_⟩
  rw [resumeAllStep_downloads, lookup_dictModify, hf j]
  by_cases hj : j = i
  · subst hj
    rw [if_pos rfl, if_pos rfl, if_pos rfl]
    cases List.lookup j m.downloads <;> rfl
  · rw [if_neg hj, if_neg hj, if_neg hj]

lemma resume_one_keys (m : Manager) (i : Nat) :
    (Manager.resume_one m i).downloads.map Prod.fst = m.downloads.map Prod.fst := by
  cases hl : List.lookup i m.downloads with
  | none =>
    unfold Manager.resume_one
    rw [hl]
    exact start_download_keys m i
  | some r =>
    rw [resume_one_eq_some m i r hl]
    split
    · exact on_status_keys m i _
    · exact start_download_keys m i

lemma resumeAllStep_keys (m : Manager) (i : Nat) :
    (Manager.resumeAllStep m i).downloads.map Prod.fst = m.downloads.map Prod.fst := by
  rw [resumeAllStep_downloads, keys_dictModify, resume_one_keys]

lemma resume_one_disp_mono (m : Manager) (i x : Nat)
    (h : x ∈ m.dispatched) : x ∈ (Manager.resume_one m i).dispatched := by
  cases hl : List.lookup i m.downloads with
  | none =>
    unfold Manager.resume_one
    rw [hl]
    exact start_download_disp_mono m i x h
  | some r =>
    rw [resume_one_eq_some m i r hl]
    split
    · rw [on_status_dispatched]
      exact h
    · exact start_download_disp_mono m i x h

lemma resumeAllStep_disp_mono (m : Manager) (i x : Nat)
    (h : x ∈ m.dispatched) : x ∈ (Manager.resumeAllStep m i).dispatched := by
  rw [resumeAllStep_dispatched_eq]
  exact resume_one_disp_mono m i x h

lemma resumeAllStep_self (m : Manager) (i : Nat) (rec : Rec)
    (hl : List.lookup i m.downloads = some rec) :
    List.lookup i (Manager.resumeAllStep m i).downloads =
      some { rec with status := DownloadStatus.PENDING, hasWorker := true } := by
  rw [resumeAllStep_downloads, lookup_dictModify, if_pos rfl]
  cases hw : rec.hasWorker with
  | true =>
    rw [resume_one_eq_some m i rec hl, if_pos hw, on_status_downloads, if_pos rfl, hl]
    simp [hw]
  | false =>
    rw [resume_one_eq_some m i rec hl, if_neg (by simp [hw]),
      start_download_downloads, if_pos rfl, hl]
    rfl

/-- The intermediate state inside one `restart_all()` iteration, after the
in-memory status write and before the re-dispatch. -/
def restartAllMid (m : Manager) (i : Nat) : Manager :=
  { m with downloads := (dictModify m.downloads i
      (fun r => { r with status := DownloadStatus.PENDING })) }

lemma restartAllStep_eq (m : Manager) (i : Nat) :
    Manager.restartAllStep m i = (restartAllMid m i).start_download i := rfl

lemma restartAllMid_downloads (m : Manager) (i : Nat) :
    (restartAllMid m i).downloads =
      dictModify m.downloads i
        (fun r => { r with status := DownloadStatus.PENDING }) := rfl

lemma restartAllStep_shape : StepShape Manager.restartAllStep := by
  intro m i
  refine ⟨fun r => { r with status := DownloadStatus.PENDING, hasWorker := true },
    fun q => ⟨rfl, rfl⟩, fun j => ?_⟩
  rw [restartAllStep_eq, start_download_downloads, restartAllMid_downloads,
    lookup_dictModify]
  by_cases hj : j = i
  · subst hj
    rw [if_pos rfl, if_pos rfl, if_pos rfl]
    cases List.lookup j m.downloads <;> rfl
  · rw [if_neg hj, if_neg hj, if_neg hj]

lemma restartAllStep_keys (m : Manager) (i : Nat) :
    (Manager.restartAllStep m i).downloads.map Prod.fst = m.downloads.map Prod.fst := by
  rw [restartAllStep_eq, start_download_keys, restartAllMid_downloads,
    keys_dictModify]

lemma restartAllStep_disp_mono (m : Manager) (i x : Nat)
    (h : x ∈ m.dispatched) : x ∈ (Manager.restartAllStep m i).dispatched := by
  rw [restartAllStep_eq]
  exact start_download_disp_mono _ i x h

lemma restartAllStep_self (m : Manager) (i : Nat) (rec : Rec)
    (hl : List.lookup i m.downloads = some rec) :
    List.lookup i (Manager.restartAllStep m i).downloads =
      some { rec with status := DownloadStatus.PENDING, hasWorker := true } ∧
    i ∈ (Manager.restartAllStep m i).dispatched := by
  have hkey : i ∈ (restartAllMid m i).downloads.map Prod.fst := by
    rw [restartAllMid_downloads, keys_dictModify]
    exact List.mem_map_of_mem Prod.fst (lookup_mem hl)
  constructor
  · rw [restartAllStep_eq, start_download_downloads, if_pos rfl,
      restartAllMid_downloads, lookup_dictModify, if_pos rfl, hl]
    rfl
  · rw [restartAllStep_eq]
    exact start_download_disp_self _ i hkey

lemma foldl_db (f : Manager → Nat → Manager)
    (hf : ∀ m i, (f m i).db = m.db) :
    ∀ (ids : List Nat) (m : Manager), (ids.foldl f m).db = m.db := by
  intro ids
  induction ids with
  | nil => intro m; rfl
  | cons i rest ih =>
    intro m
    rw [List.foldl_cons, ih, hf]

lemma contains_status_iff (S : List DownloadStatus) (s : DownloadStatus) :
    S.contains s = true ↔ s ∈ S := by
  induction S with
  | nil => simp
  | cons a rest ih =>
    simp [List.contains_cons] at ih ⊢

lemma start_keys (m : Manager) :
    m.start.downloads.map Prod.fst = m.downloads.map Prod.fst :=
  foldl_keys Manager.startStep startStep_keys _ m

lemma start_db (m : Manager) : m.start.db = m.db :=
  foldl_db Manager.startStep startStep_db _ m

lemma rowLookup_start (m : Manager) (j : Nat) :
    rowLookup j m.start = rowLookup j m := by
  unfold rowLookup
  rw [start_db]

/-- What `start()` does to the record under a given id: the status and the
byte counters are untouched, and a worker is dispatched when the record is
PENDING with no running worker. -/
lemma start_lookup (m : Manager) (hnd : (m.downloads.map Prod.fst).Nodup)
    (j : Nat) (rec : Rec) (hl : List.lookup j m.downloads = some rec) :
    ∃ rec2, List.lookup j m.start.downloads = some rec2 ∧
      rec2.status = rec.status ∧
      rec2.downloaded_bytes = rec.downloaded_bytes ∧
      rec2.total_bytes = rec.total_bytes ∧
      (rec.status = DownloadStatus.PENDING → rec.workerRunning = false →
        j ∈ m.start.dispatched) := by
  have hjmem : j ∈ m.downloads.map Prod.fst :=
    List.mem_map_of_mem Prod.fst (lookup_mem hl)
  by_cases hcase : rec.status = DownloadStatus.PENDING ∧
      ¬ (rec.hasWorker ∧ rec.workerRunning)
  · have h := foldl_process Manager.startStep
      (fun q => { q with hasWorker := true }) j rec True
      (fun m2 i2 => stepShape_frame startStep_shape m2 i2 j)
      (fun m2 i2 x hx => startStep_disp_mono m2 i2 x hx)
      (fun m2 hl2 => ⟨(startStep_pending m2 j rec hl2 hcase.1 hcase.2).1,
        fun _ => (startStep_pending m2 j rec hl2 hcase.1 hcase.2).2⟩)
      (m.downloads.map Prod.fst) m hnd hjmem hl
    exact ⟨{ rec with hasWorker := true }, h.1, rfl, rfl, rfl,
      fun _ _ => h.2 trivial⟩
  · have hskip : rec.status ≠ DownloadStatus.PENDING ∨
        (rec.hasWorker ∧ rec.workerRunning) := by tauto
    have h := foldl_process Manager.startStep id j rec False
      (fun m2 i2 => stepShape_frame startStep_shape m2 i2 j)
      (fun m2 i2 x hx => startStep_disp_mono m2 i2 x hx)
      (fun m2 hl2 => ⟨startStep_skip m2 j rec hl2 hskip, False.elim⟩)
      (m.downloads.map Prod.fst) m hnd hjmem hl
    refine ⟨rec, h.1, rfl, rfl, rfl, fun hP hrun => ?_⟩
    exact absurd ⟨hP, by simp [hrun]⟩ hcase

/-- The ids collected by `resume_interrupted_downloads` before demoting. -/
def interruptedIds (m : Manager) : List Nat :=
  (m.get_downloads [DownloadStatus.DOWNLOADING, DownloadStatus.PENDING]).map Prod.fst

lemma resume_interrupted_eq (m : Manager) :
    m.resume_interrupted_downloads =
      ((interruptedIds m).foldl Manager.demoteStep m).start := rfl

/-- What the demote loop of `resume_interrupted_downloads` does to the
record under a given id. -/
lemma demote_fold_lookup (m : Manager) (hnd : (m.downloads.map Prod.fst).Nodup)
    (id : Nat) (rec : Rec) (hl : List.lookup id m.downloads = some rec) :
    List.lookup id ((interruptedIds m).foldl Manager.demoteStep m).downloads =
      some (if rec.status = DownloadStatus.DOWNLOADING ∨
          rec.status = DownloadStatus.PENDING then
        { rec with status := DownloadStatus.PENDING } else rec) := by
  have hndids : (interruptedIds m).Nodup := getDownloads_ids_nodup hnd
  by_cases hst : rec.status = DownloadStatus.DOWNLOADING ∨
      rec.status = DownloadStatus.PENDING
  · rw [if_pos hst]
    have hmem : id ∈ interruptedIds m := by
      refine (mem_getDownloads_ids hnd).mpr ⟨rec, hl, ?_⟩
      rw [contains_status_iff]
      rcases hst with h | h <;> simp [h]
    exact (foldl_process Manager.demoteStep
      (fun q => { q with status := DownloadStatus.PENDING }) id rec False
      (fun m2 i2 => stepShape_frame demoteStep_shape m2 i2 id)
      (fun m2 i2 x hx => by rw [demoteStep_dispatched]; exact hx)
      (fun m2 hl2 => ⟨demoteStep_lookup_self m2 id rec hl2, False.elim⟩)
      (interruptedIds m) m hndids hmem hl).1
  · rw [if_neg hst]
    have hnotmem : id ∉ interruptedIds m := by
      intro hmem
      rcases (mem_getDownloads_ids hnd).mp hmem with ⟨r, hr, hcont⟩
      rw [hl] at hr
      injection hr with hr
      subst hr
      rw [contains_status_iff] at hcont
      simp at hcont
      exact hst hcont
    rw [foldl_lookup_notmem Manager.demoteStep id
      (fun m2 i2 => stepShape_frame demoteStep_shape m2 i2 id)
      (interruptedIds m) m hnotmem]
    exact hl

/-- C4: `resume_interrupted_downloads()` demotes every DOWNLOADING record
to PENDING without touching its byte counters, persists the new status
when history saving is enabled, dispatches a worker for it (it has no
running worker after a crash), and afterwards no record in the registry is
DOWNLOADING. -/
theorem C4_resume_interrupted (m : Manager)
    (hnd : (m.downloads.map Prod.fst).Nodup) :
    (∀ p ∈ m.resume_interrupted_downloads.downloads,
      p.2.status ≠ DownloadStatus.DOWNLOADING) ∧
    (∀ id rec, List.lookup id m.downloads = some rec →
      ∃ rec2, List.lookup id m.resume_interrupted_downloads.downloads = some rec2 ∧
        rec2.downloaded_bytes = rec.downloaded_bytes ∧
        rec2.total_bytes = rec.total_bytes ∧
        (rec.status = DownloadStatus.DOWNLOADING →
          rec2.status = DownloadStatus.PENDING ∧
          (rec.workerRunning = false →
            id ∈ m.resume_interrupted_downloads.dispatched) ∧
          (m.save_history = true → ∀ row, rowLookup id m = some row →
            rowLookup id m.resume_interrupted_downloads =
              some { row with status := DownloadStatus.PENDING }))) := by
  have hndids : (interruptedIds m).Nodup := getDownloads_ids_nodup hnd
  set m2 := (interruptedIds m).foldl Manager.demoteStep m with hm2
  have hkeys2 : m2.downloads.map Prod.fst = m.downloads.map Prod.fst :=
    foldl_keys Manager.demoteStep demoteStep_keys _ m
  have hnd2 : (m2.downloads.map Prod.fst).Nodup := by
    rw [hkeys2]
    exact hnd
  have hchar : ∀ id rec, List.lookup id m.downloads = some rec →
      ∃ rec2, List.lookup id m.resume_interrupted_downloads.downloads = some rec2 ∧
        rec2.status = (if rec.status = DownloadStatus.DOWNLOADING ∨
            rec.status = DownloadStatus.PENDING then
          DownloadStatus.PENDING else rec.status) ∧
        rec2.downloaded_bytes = rec.downloaded_bytes ∧
        rec2.total_bytes = rec.total_bytes ∧
        (rec.status = DownloadStatus.DOWNLOADING →
          rec.workerRunning = false →
          id ∈ m.resume_interrupted_downloads.dispatched) := by
    intro id rec hl
    have hdl := demote_fold_lookup m hnd id rec hl
    rw [← hm2] at hdl
    by_cases hst : rec.status = DownloadStatus.DOWNLOADING ∨
        rec.status = DownloadStatus.PENDING
    · rw [if_pos hst] at hdl
      rcases start_lookup m2 hnd2 id _ hdl with ⟨rec2, h1, h2, h3, h4, h5⟩
      rw [resume_interrupted_eq, ← hm2]
      refine ⟨rec2, h1, by rw [h2, if_pos hst], h3, h4, fun _ hrun => h5 rfl hrun⟩
    · rw [if_neg hst] at hdl
      rcases start_lookup m2 hnd2 id rec hdl with ⟨rec2, h1, h2, h3, h4, _⟩
      rw [resume_interrupted_eq, ← hm2]
      refine ⟨rec2, h1, by rw [h2, if_neg hst], h3, h4, fun hD _ => ?_⟩
      exact absurd (Or.inl hD) hst
  constructor
  · intro p hp
    have hndres : (m.resume_interrupted_downloads.downloads.map Prod.fst).Nodup := by
      rw [resume_interrupted_eq, ← hm2, start_keys, hkeys2]
      exact hnd
    have hlres : List.lookup p.1 m.resume_interrupted_downloads.downloads =
        some p.2 := lookup_of_mem_nodup hndres hp
    have hpkeys : p.1 ∈ m.downloads.map Prod.fst := by
      have : p.1 ∈ m.resume_interrupted_downloads.downloads.map Prod.fst :=
        List.mem_map_of_mem Prod.fst hp
      rw [resume_interrupted_eq, ← hm2, start_keys, hkeys2] at this
      exact this
    rcases lookup_of_mem_keys hpkeys with ⟨rec0, hrec0⟩
    rcases hchar p.1 rec0 hrec0 with ⟨rec2, h1, h2, _⟩
    rw [hlres] at h1
    injection h1 with h1
    rw [h1, h2]
    by_cases hst : rec0.status = DownloadStatus.DOWNLOADING ∨
        rec0.status = DownloadStatus.PENDING
    · rw [if_pos hst]
      intro hcontra
      exact DownloadStatus.noConfusion hcontra
    · rw [if_neg hst]
      intro hcontra
      exact hst (Or.inl hcontra)
  · intro id rec hl
    rcases hchar id rec hl with ⟨rec2, h1, h2, h3, h4, h5⟩
    refine ⟨rec2, h1, h3, h4, fun hD => ⟨by rw [h2, if_pos (Or.inl hD)],
      fun hrun => h5 hD hrun, fun hsave row hrow => ?_⟩⟩
    have hmem : id ∈ interruptedIds m := by
      refine (mem_getDownloads_ids hnd).mpr ⟨rec, hl, ?_⟩
      rw [contains_status_iff]
      simp [hD]
    have hrow2 := foldl_row_process Manager.demoteStep
      (fun q => { q with status := DownloadStatus.PENDING }) id row
      demoteStep_save (fun m3 i3 => demoteStep_row_ne m3 i3 id)
      (fun m3 i3 => stepShape_frame demoteStep_shape m3 i3 id)
      (fun m3 rec3 hsv3 _ hrow3 => demoteStep_row_self m3 id row hsv3 hrow3)
      (interruptedIds m) m rec hndids hmem hsave hl hrow
    rw [resume_interrupted_eq, rowLookup_start, ← hm2]
    rw [← hm2] at hrow2
    exact hrow2

/-- A one-item registry as left behind by a crash: the record is
DOWNLOADING with a partial byte count and no live worker, and the same
row sits in the persistence store. -/
def interruptedRec : Rec :=
  { url := "http://h/f.mp3"
    filename := "f.mp3"
    folder_path := "/d"
    status := DownloadStatus.DOWNLOADING
    downloaded_bytes := 40
    total_bytes := 100 }

def sampleInterrupted : Manager :=
  { downloads := [(1, interruptedRec)]
    save_history := true
    db := some { rows := [(1, interruptedRec)], nextId := 2 } }

/-- Witness for C4: one record interrupted mid-transfer (DOWNLOADING with
40 of 100 bytes, no worker) with history saving on. -/
theorem C4_resume_interrupted_witness :
    (((sampleInterrupted.downloads.map Prod.fst).Nodup) ∧
    ((∀ p ∈ sampleInterrupted.resume_interrupted_downloads.downloads,
      p.2.status ≠ DownloadStatus.DOWNLOADING) ∧
    (∀ id rec, List.lookup id sampleInterrupted.downloads = some rec →
      ∃ rec2, List.lookup id
          sampleInterrupted.resume_interrupted_downloads.downloads = some rec2 ∧
        rec2.downloaded_bytes = rec.downloaded_bytes ∧
        rec2.total_bytes = rec.total_bytes ∧
        (rec.status = DownloadStatus.DOWNLOADING →
          rec2.status = DownloadStatus.PENDING ∧
          (rec.workerRunning = false →
            id ∈ sampleInterrupted.resume_interrupted_downloads.dispatched) ∧
          (sampleInterrupted.save_history = true →
            ∀ row, rowLookup id sampleInterrupted = some row →
            rowLookup id sampleInterrupted.resume_interrupted_downloads =
              some { row with status := DownloadStatus.PENDING }))))) :=
  ⟨by simp [sampleInterrupted], C4_resume_interrupted sampleInterrupted
    (by simp [sampleInterrupted])⟩

/-- A sample ERROR record holding a partial byte count. -/
def sampleErroredRec : Rec :=
  { url := "http://h/e.mp3"
    filename := "e.mp3"
    folder_path := "/d"
    status := DownloadStatus.ERROR
    downloaded_bytes := 5
    total_bytes := 10 }

/-- A registry holding the sample ERROR record under id 1. -/
def sampleErrored : Manager :=
  { downloads := [(1, sampleErroredRec)] }

/-- The intermediate state of `restart(id)` after the in-memory reset and
the optional status persist, before the re-dispatch (manager.py lines
236-240). -/
def restartMid (m : Manager) (id : Nat) : Manager :=
  let m1 := { m with downloads := (dictModify m.downloads id
      (fun r => { r with status := DownloadStatus.PENDING, downloaded_bytes := 0 })) }
  if m1.save_history then
    { m1 with db := (m1.db.map
        (fun st => st.update_status id DownloadStatus.PENDING)) }
  else m1

lemma restart_eq (m : Manager) (id : Nat) (rec : Rec)
    (hl : List.lookup id m.downloads = some rec) :
    m.restart id = (restartMid m id).start_download id := by
  unfold Manager.restart restartMid
  rw [hl]

lemma restartMid_downloads (m : Manager) (id : Nat) :
    (restartMid m id).downloads =
      dictModify m.downloads id
        (fun r => { r with status := DownloadStatus.PENDING, downloaded_bytes := 0 }) := by
  simp only [restartMid]
  split <;> rfl

lemma restartMid_dispatched (m : Manager) (id : Nat) :
    (restartMid m id).dispatched = m.dispatched := by
  simp only [restartMid]
  split <;> rfl

/-- The state of `restart_all()` after the bulk status persist, before the
per-item loop (manager.py lines 302-306). -/
def restartAllPre (m : Manager) : Manager :=
  if m.save_history then
    { m with db := (m.db.map (fun st => st.update_by_status
        [DownloadStatus.CANCELLED, DownloadStatus.ERROR] DownloadStatus.PENDING)) }
  else m

lemma restart_all_eq (m : Manager) :
    m.restart_all =
      (((restartAllPre m).get_downloads
          [DownloadStatus.CANCELLED, DownloadStatus.ERROR]).map Prod.fst).foldl
        Manager.restartAllStep (restartAllPre m) := rfl

lemma restartAllPre_downloads (m : Manager) :
    (restartAllPre m).downloads = m.downloads := by
  simp only [restartAllPre]
  split <;> rfl

/-- C2 (as stated) is refuted by the code: `restart(id)` sets the item's
`downloaded_bytes` to 0 (manager.py line 237) rather than leaving it
unchanged; here an ERROR item with 5 downloaded bytes has 0 after
restart. -/
theorem C2_counterexample :
    (List.lookup 1 (sampleErrored.restart 1).downloads).map
        Rec.downloaded_bytes = some 0 ∧
    ¬ (List.lookup 1 (sampleErrored.restart 1).downloads).map
          Rec.downloaded_bytes =
        (List.lookup 1 sampleErrored.downloads).map Rec.downloaded_bytes := by
  decide

/-- C2 (amended): `restart(id)` resets the item's status to PENDING and
re-dispatches a Worker but also resets its `downloaded_bytes` to 0;
`restart_all()` resets status to PENDING and re-dispatches for every
CANCELLED/ERROR item, leaving `downloaded_bytes` unchanged; in both cases
the new Worker still resumes from the existing partial file, because its
resume offset is read from the temp file size, not from the registry's
`downloaded_bytes`. -/
theorem C2_restart_behaviour :
    (∀ (m : Manager) (id : Nat) (rec : Rec),
      List.lookup id m.downloads = some rec →
      List.lookup id (m.restart id).downloads =
        some { rec with status := DownloadStatus.PENDING, downloaded_bytes := 0, hasWorker := true } ∧
      id ∈ (m.restart id).dispatched) ∧
    (∀ (m : Manager) (id : Nat) (rec : Rec),
      (m.downloads.map Prod.fst).Nodup →
      List.lookup id m.downloads = some rec →
      (rec.status = DownloadStatus.CANCELLED ∨
        rec.status = DownloadStatus.ERROR) →
      List.lookup id m.restart_all.downloads =
        some { rec with status := DownloadStatus.PENDING, hasWorker := true } ∧
      id ∈ m.restart_all.dispatched) ∧
    (∀ (tempExists : Bool) (tempSize clen : Nat),
      (downloadSetup tempExists tempSize clen).offset =
        (if tempExists then tempSize else 0)) := by
  refine ⟨?_, ?_, ?_⟩
  · intro m id rec hl
    have hkey : id ∈ (restartMid m id).downloads.map Prod.fst := by
      rw [restartMid_downloads, keys_dictModify]
      exact List.mem_map_of_mem Prod.fst (lookup_mem hl)
    constructor
    · rw [restart_eq m id rec hl, start_download_downloads, if_pos rfl,
        restartMid_downloads, lookup_dictModify, if_pos rfl, hl]
      rfl
    · rw [restart_eq m id rec hl]
      exact start_download_disp_self _ id hkey
  · intro m id rec hnd hl hst
    have hlpre : List.lookup id (restartAllPre m).downloads = some rec := by
      rw [restartAllPre_downloads]
      exact hl
    have hndpre : ((restartAllPre m).downloads.map Prod.fst).Nodup := by
      rw [restartAllPre_downloads]
      exact hnd
    have hmem : id ∈ ((restartAllPre m).get_downloads
        [DownloadStatus.CANCELLED, DownloadStatus.ERROR]).map Prod.fst := by
      refine (mem_getDownloads_ids hndpre).mpr ⟨rec, hlpre, ?_⟩
      rw [contains_status_iff]
      rcases hst with h | h <;> simp [h]
    have hndids : (((restartAllPre m).get_downloads
        [DownloadStatus.CANCELLED, DownloadStatus.ERROR]).map Prod.fst).Nodup :=
      getDownloads_ids_nodup hndpre
    have h := foldl_process Manager.restartAllStep
      (fun q => { q with status := DownloadStatus.PENDING, hasWorker := true })
      id rec True
      (fun m2 i2 => stepShape_frame restartAllStep_shape m2 i2 id)
      (fun m2 i2 x hx => restartAllStep_disp_mono m2 i2 x hx)
      (fun m2 hl2 => ⟨(restartAllStep_self m2 id rec hl2).1,
        fun _ => (restartAllStep_self m2 id rec hl2).2⟩)
      _ (restartAllPre m) hndids hmem hlpre
    rw [restart_all_eq]
    exact ⟨h.1, h.2 trivial⟩
  · intro tempExists tempSize clen
    cases tempExists <;> rfl

/-- Witness for C2: a registry holding one ERROR item with 5 downloaded
bytes; restart resets the counter to 0 and re-dispatches, restart_all
keeps the counter. -/
theorem C2_restart_behaviour_witness :
    (List.lookup 1 (sampleErrored.restart 1).downloads =
        some { sampleErroredRec with status := DownloadStatus.PENDING, downloaded_bytes := 0, hasWorker := true } ∧
      1 ∈ (sampleErrored.restart 1).dispatched) ∧
    ((sampleErrored.downloads.map Prod.fst).Nodup ∧
      (sampleErroredRec.status = DownloadStatus.CANCELLED ∨
        sampleErroredRec.status = DownloadStatus.ERROR) ∧
      List.lookup 1 sampleErrored.restart_all.downloads =
        some { sampleErroredRec with status := DownloadStatus.PENDING, hasWorker := true } ∧
      1 ∈ sampleErrored.restart_all.dispatched) :=
  ⟨C2_restart_behaviour.1 sampleErrored 1 sampleErroredRec (by decide),
    by simp [sampleErrored],
    by decide,
    (C2_restart_behaviour.2.1 sampleErrored 1 sampleErroredRec
      (by simp [sampleErrored]) (by decide) (by decide)).1,
    (C2_restart_behaviour.2.1 sampleErrored 1 sampleErroredRec
      (by simp [sampleErrored]) (by decide) (by decide)).2⟩

/-- The state of `pause_all()` after the flag write and the bulk status
persist, before the per-item loops (manager.py lines 246-252). -/
def pauseAllPre (m : Manager) : Manager :=
  let m1 := { m with pauseAllFlag := true }
  if m1.save_history then
    { m1 with db := (m1.db.map (fun st => st.update_by_status
        [DownloadStatus.DOWNLOADING, DownloadStatus.PENDING] DownloadStatus.PAUSED)) }
  else m1

lemma pauseAllPre_downloads (m : Manager) :
    (pauseAllPre m).downloads = m.downloads := by
  simp only [pauseAllPre]
  split <;> rfl

/-- What `pause_all()` does to a PENDING or DOWNLOADING record: it ends up
PAUSED with everything else unchanged. -/
lemma pause_all_lookup (m : Manager) (hnd : (m.downloads.map Prod.fst).Nodup)
    (id : Nat) (rec : Rec) (hl : List.lookup id m.downloads = some rec)
    (hst : rec.status = DownloadStatus.PENDING ∨
      rec.status = DownloadStatus.DOWNLOADING) :
    List.lookup id m.pause_all.downloads =
      some { rec with status := DownloadStatus.PAUSED } := by
  have hl2 : List.lookup id (pauseAllPre m).downloads = some rec := by
    rw [pauseAllPre_downloads]
    exact hl
  have hnd2 : ((pauseAllPre m).downloads.map Prod.fst).Nodup := by
    rw [pauseAllPre_downloads]
    exact hnd
  set m2 := pauseAllPre m with hm2
  set ids1 := (m2.get_downloads [DownloadStatus.DOWNLOADING]).map Prod.fst with hids1
  set m3 := ids1.foldl Manager.pause_one m2 with hm3
  set ids2 := (m3.get_downloads
    [DownloadStatus.DOWNLOADING, DownloadStatus.PENDING]).map Prod.fst with hids2
  have hres : m.pause_all = ids2.foldl Manager.pauseMarkStep m3 := rfl
  have hnd1 : ids1.Nodup := getDownloads_ids_nodup hnd2
  have hkeys3 : m3.downloads.map Prod.fst = m2.downloads.map Prod.fst :=
    foldl_keys Manager.pause_one pause_one_keys _ m2
  have hnd3 : (m3.downloads.map Prod.fst).Nodup := by
    rw [hkeys3]
    exact hnd2
  have hnd2ids : ids2.Nodup := getDownloads_ids_nodup hnd3
  rw [hres]
  rcases hst with hP | hD
  · -- PENDING: untouched by loop 1, marked PAUSED by loop 2
    have hnot1 : id ∉ ids1 := by
      intro hmem
      rcases (mem_getDownloads_ids hnd2).mp hmem with ⟨r, hr, hcont⟩
      rw [hl2] at hr
      injection hr with hr
      subst hr
      rw [contains_status_iff] at hcont
      simp [hP] at hcont
    have hl3 : List.lookup id m3.downloads = some rec := by
      rw [hm3, foldl_lookup_notmem Manager.pause_one id
        (fun m4 i4 => stepShape_frame pause_one_shape m4 i4 id) ids1 m2 hnot1]
      exact hl2
    have hmem2 : id ∈ ids2 := by
      refine (mem_getDownloads_ids hnd3).mpr ⟨rec, hl3, ?_⟩
      rw [contains_status_iff]
      simp [hP]
    exact (foldl_process Manager.pauseMarkStep
      (fun q => { q with status := DownloadStatus.PAUSED }) id rec False
      (fun m4 i4 => stepShape_frame pauseMarkStep_shape m4 i4 id)
      (fun m4 i4 x hx => hx)
      (fun m4 hl4 => ⟨pauseMarkStep_self m4 id rec hl4, False.elim⟩)
      ids2 m3 hnd2ids hmem2 hl3).1
  · -- DOWNLOADING
    have hmem1 : id ∈ ids1 := by
      refine (mem_getDownloads_ids hnd2).mpr ⟨rec, hl2, ?_⟩
      rw [contains_status_iff]
      simp [hD]
    by_cases hw : rec.hasWorker = true
    · -- live worker: paused via the worker callback in loop 1
      have hl3 : List.lookup id m3.downloads =
          some { rec with status := DownloadStatus.PAUSED } := by
        rw [hm3]
        exact (foldl_process Manager.pause_one
          (fun q => { q with status := DownloadStatus.PAUSED }) id rec False
          (fun m4 i4 => stepShape_frame pause_one_shape m4 i4 id)
          (fun m4 i4 x hx => by rw [pause_one_dispatched]; exact hx)
          (fun m4 hl4 => ⟨(pause_one_self m4 id rec hl4).trans
            (by rw [if_pos hw]), False.elim⟩)
          ids1 m2 hnd1 hmem1 hl2).1
      have hnot2 : id ∉ ids2 := by
        intro hmem
        rcases (mem_getDownloads_ids hnd3).mp hmem with ⟨r, hr, hcont⟩
        rw [hl3] at hr
        injection hr with hr
        subst hr
        rw [contains_status_iff] at hcont
        simp at hcont
      rw [foldl_lookup_notmem Manager.pauseMarkStep id
        (fun m4 i4 => stepShape_frame pauseMarkStep_shape m4 i4 id) ids2 m3 hnot2]
      exact hl3
    · -- no live worker: loop 1 is a no-op, loop 2 marks PAUSED
      have hl3 : List.lookup id m3.downloads = some rec := by
        rw [hm3]
        exact (foldl_process Manager.pause_one (fun q : Rec => q) id rec False
          (fun m4 i4 => stepShape_frame pause_one_shape m4 i4 id)
          (fun m4 i4 x hx => by rw [pause_one_dispatched]; exact hx)
          (fun m4 hl4 => ⟨(pause_one_self m4 id rec hl4).trans
            (by rw [if_neg (by simp [hw])]), False.elim⟩)
          ids1 m2 hnd1 hmem1 hl2).1
      have hmem2 : id ∈ ids2 := by
        refine (mem_getDownloads_ids hnd3).mpr ⟨rec, hl3, ?_⟩
        rw [contains_status_iff]
        simp [hD]
      exact (foldl_process Manager.pauseMarkStep
        (fun q => { q with status := DownloadStatus.PAUSED }) id rec False
        (fun m4 i4 => stepShape_frame pauseMarkStep_shape m4 i4 id)
        (fun m4 i4 x hx => hx)
        (fun m4 hl4 => ⟨pauseMarkStep_self m4 id rec hl4, False.elim⟩)
        ids2 m3 hnd2ids hmem2 hl3).1

lemma pause_all_keys (m : Manager) :
    m.pause_all.downloads.map Prod.fst = m.downloads.map Prod.fst := by
  set m2 := pauseAllPre m with hm2
  set ids1 := (m2.get_downloads [DownloadStatus.DOWNLOADING]).map Prod.fst with hids1
  set m3 := ids1.foldl Manager.pause_one m2 with hm3
  set ids2 := (m3.get_downloads
    [DownloadStatus.DOWNLOADING, DownloadStatus.PENDING]).map Prod.fst with hids2
  have hres : m.pause_all = ids2.foldl Manager.pauseMarkStep m3 := rfl
  rw [hres, foldl_keys Manager.pauseMarkStep pauseMarkStep_keys, hm3,
    foldl_keys Manager.pause_one pause_one_keys, hm2, pauseAllPre_downloads]

lemma pause_all_bytes (m : Manager) (j : Nat) (rec : Rec)
    (hl : List.lookup j m.downloads = some rec) :
    ∃ rec2, List.lookup j m.pause_all.downloads = some rec2 ∧
      rec2.downloaded_bytes = rec.downloaded_bytes ∧
      rec2.total_bytes = rec.total_bytes := by
  have hl2 : List.lookup j (pauseAllPre m).downloads = some rec := by
    rw [pauseAllPre_downloads]
    exact hl
  set m2 := pauseAllPre m with hm2
  set ids1 := (m2.get_downloads [DownloadStatus.DOWNLOADING]).map Prod.fst with hids1
  set m3 := ids1.foldl Manager.pause_one m2 with hm3
  set ids2 := (m3.get_downloads
    [DownloadStatus.DOWNLOADING, DownloadStatus.PENDING]).map Prod.fst with hids2
  have hres : m.pause_all = ids2.foldl Manager.pauseMarkStep m3 := rfl
  rw [hres]
  rcases foldl_bytes_kept Manager.pause_one (stepShape_bytes pause_one_shape)
    ids1 m2 j rec hl2 with ⟨r3, h3, hb3, ht3⟩
  rcases foldl_bytes_kept Manager.pauseMarkStep
    (stepShape_bytes pauseMarkStep_shape) ids2 m3 j r3 h3 with ⟨r4, h4, hb4, ht4⟩
  exact ⟨r4, h4, hb4.trans hb3, ht4.trans ht3⟩

/-- The id list collected by `resume_all()` (snapshot of PAUSED items). -/
def resumeAllIds (m : Manager) : List Nat :=
  (({ m with pauseAllFlag := false } : Manager).get_downloads
    [DownloadStatus.PAUSED]).map Prod.fst

lemma resume_all_downloads (m : Manager) :
    m.resume_all.downloads =
      ((resumeAllIds m).foldl Manager.resumeAllStep
        { m with pauseAllFlag := false }).downloads := by
  simp only [Manager.resume_all, resumeAllIds]
  split <;> rfl

lemma resume_all_lookup (m : Manager) (hnd : (m.downloads.map Prod.fst).Nodup)
    (id : Nat) (rec : Rec) (hl : List.lookup id m.downloads = some rec)
    (hst : rec.status = DownloadStatus.PAUSED) :
    List.lookup id m.resume_all.downloads =
      some { rec with status := DownloadStatus.PENDING, hasWorker := true } := by
  rw [resume_all_downloads]
  have hl1 : List.lookup id
      ({ m with pauseAllFlag := false } : Manager).downloads = some rec := hl
  have hnd1 : (({ m with pauseAllFlag := false } : Manager).downloads.map
      Prod.fst).Nodup := hnd
  have hmem : id ∈ resumeAllIds m := by
    refine (mem_getDownloads_ids hnd1).mpr ⟨rec, hl1, ?_⟩
    rw [contains_status_iff]
    simp [hst]
  have hndids : (resumeAllIds m).Nodup := getDownloads_ids_nodup hnd1
  exact (foldl_process Manager.resumeAllStep
    (fun q => { q with status := DownloadStatus.PENDING, hasWorker := true })
    id rec False
    (fun m2 i2 => stepShape_frame resumeAllStep_shape m2 i2 id)
    (fun m2 i2 x hx => resumeAllStep_disp_mono m2 i2 x hx)
    (fun m2 hl2 => ⟨resumeAllStep_self m2 id rec hl2, False.elim⟩)
    (resumeAllIds m) _ hndids hmem hl1).1

lemma resume_all_bytes (m : Manager) (j : Nat) (rec : Rec)
    (hl : List.lookup j m.downloads = some rec) :
    ∃ rec2, List.lookup j m.resume_all.downloads = some rec2 ∧
      rec2.downloaded_bytes = rec.downloaded_bytes ∧
      rec2.total_bytes = rec.total_bytes := by
  rw [resume_all_downloads]
  exact foldl_bytes_kept Manager.resumeAllStep
    (stepShape_bytes resumeAllStep_shape) (resumeAllIds m) _ j rec hl

/-- C5: `pause_all()` immediately followed by `resume_all()` leaves every
item that was PENDING or DOWNLOADING before the pause with status PENDING
(and a worker attached), and no item's `downloaded_bytes` is decreased by
the pair of calls. -/
theorem C5_pause_resume_roundtrip (m : Manager)
    (hnd : (m.downloads.map Prod.fst).Nodup) :
    (∀ id rec, List.lookup id m.downloads = some rec →
      (rec.status = DownloadStatus.PENDING ∨
        rec.status = DownloadStatus.DOWNLOADING) →
      List.lookup id m.pause_all.resume_all.downloads =
        some { rec with status := DownloadStatus.PENDING, hasWorker := true }) ∧
    (∀ id rec, List.lookup id m.downloads = some rec →
      ∃ rec2, List.lookup id m.pause_all.resume_all.downloads = some rec2 ∧
        rec2.downloaded_bytes = rec.downloaded_bytes) := by
  have hndp : (m.pause_all.downloads.map Prod.fst).Nodup := by
    rw [pause_all_keys]
    exact hnd
  constructor
  · intro id rec hl hst
    have hp := pause_all_lookup m hnd id rec hl hst
    exact resume_all_lookup m.pause_all hndp id
      { rec with status := DownloadStatus.PAUSED } hp rfl
  · intro id rec hl
    rcases pause_all_bytes m id rec hl with ⟨r2, h2, hb2, ht2⟩
    rcases resume_all_bytes m.pause_all id r2 h2 with ⟨r3, h3, hb3, _⟩
    exact ⟨r3, h3, hb3.trans hb2⟩

/-- A PENDING record with some bytes already on disk. -/
def samplePairRecA : Rec :=
  { url := "http://h/a.mp3"
    filename := "a.mp3"
    folder_path := "/d"
    status := DownloadStatus.PENDING
    downloaded_bytes := 3
    total_bytes := 9 }

/-- A DOWNLOADING record with a live, running worker. -/
def samplePairRecB : Rec :=
  { url := "http://h/b.mp3"
    filename := "b.mp3"
    folder_path := "/d"
    status := DownloadStatus.DOWNLOADING
    downloaded_bytes := 7
    total_bytes := 20
    hasWorker := true
    workerRunning := true }

/-- A registry holding the two sample records. -/
def samplePair : Manager :=
  { downloads := [(1, samplePairRecA), (2, samplePairRecB)] }

/-- Witness for C5: a two-item registry, one PENDING and one DOWNLOADING
with a live worker; both end PENDING with their byte counts intact. -/
theorem C5_pause_resume_roundtrip_witness :
    ((samplePair.downloads.map Prod.fst).Nodup) ∧
    ((∀ id rec, List.lookup id samplePair.downloads = some rec →
      (rec.status = DownloadStatus.PENDING ∨
        rec.status = DownloadStatus.DOWNLOADING) →
      List.lookup id samplePair.pause_all.resume_all.downloads =
        some { rec with status := DownloadStatus.PENDING, hasWorker := true }) ∧
    (∀ id rec, List.lookup id samplePair.downloads = some rec →
      ∃ rec2, List.lookup id samplePair.pause_all.resume_all.downloads =
          some rec2 ∧
        rec2.downloaded_bytes = rec.downloaded_bytes)) :=
  ⟨by simp [samplePair], C5_pause_resume_roundtrip samplePair
    (by simp [samplePair])⟩

/-! ## Lemmas for add, delete and the filesystem -/

lemma mem_dictSet {m : Registry} {k : Nat} {v : Rec} {p : Nat × Rec}
    (h : p ∈ dictSet m k v) : p ∈ m ∨ p = (k, v) := by
  unfold dictSet at h
  split at h
  · rcases List.mem_map.mp h with ⟨q, hq, he⟩
    by_cases hqk : (q.1 == k) = true
    · right
      rw [← he, if_pos hqk]
    · left
      rw [← he, if_neg hqk]
      exact hq
  · rcases List.mem_append.mp h with h | h
    · left
      exact h
    · right
      simpa using h

lemma mem_addLoop {gen : List Nat} {p : Nat × Rec} :
    ∀ {items : List Rec} {downloads : Registry} {index : Nat},
      p ∈ addLoop downloads gen index items → p ∈ downloads ∨ p.2 ∈ items := by
  intro items
  induction items with
  | nil =>
    intro downloads index h
    left
    exact h
  | cons r rest ih =>
    intro downloads index h
    rcases ih h with h2 | h2
    · rcases mem_dictSet h2 with h3 | h3
      · left
        exact h3
      · right
        rw [h3]
        simp
    · right
      simp [h2]

lemma mem_upsert_one_rows {st : Store} {r : Rec} {io : Option Nat}
    {p : Nat × Rec} (h : p ∈ (st.upsert_one r io).1.rows) :
    p ∈ st.rows ∨ p.2 = r := by
  cases io with
  | none =>
    have h2 : p ∈ st.rows ++ [(st.nextId, r)] := h
    rcases List.mem_append.mp h2 with h3 | h3
    · exact Or.inl h3
    · right
      simp at h3
      rw [h3]
  | some i =>
    have he : st.upsert_one r (some i) =
        if (st.rows.any fun p => p.1 == i) = true then
          ({ st with rows := (st.rows.map
            (fun p => if (p.1 == i) = true then (i, r) else p)) }, i)
        else ({ st with rows := st.rows ++ [(i, r)], nextId := max st.nextId (i + 1) }, i) := rfl
    by_cases hin : st.rows.any (fun p => p.1 == i) = true
    · rw [he, if_pos hin] at h
      rcases List.mem_map.mp h with ⟨q, hq, hqe⟩
      by_cases hqi : (q.1 == i) = true
      · right
        rw [← hqe, if_pos hqi]
      · left
        rw [← hqe, if_neg hqi]
        exact hq
    · rw [he, if_neg hin] at h
      rcases List.mem_append.mp (h : p ∈ st.rows ++ [(i, r)]) with h3 | h3
      · exact Or.inl h3
      · right
        simp at h3
        rw [h3]

lemma mem_upsert_many_rows :
    ∀ (items : List (Rec × Option Nat)) (acc : Store × List Nat) (p : Nat × Rec),
      p ∈ (items.foldl (fun acc it =>
        let si := acc.1.upsert_one it.1 it.2
        (si.1, acc.2 ++ [si.2])) acc).1.rows →
      p ∈ acc.1.rows ∨ ∃ it ∈ items, p.2 = it.1 := by
  intro items
  induction items with
  | nil =>
    intro acc p h
    left
    exact h
  | cons it rest ih =>
    intro acc p h
    rcases ih _ p h with h2 | h2
    · rcases mem_upsert_one_rows h2 with h3 | h3
      · left
        exact h3
      · right
        exact ⟨it, by simp, h3⟩
    · right
      rcases h2 with ⟨it2, hmem, he⟩
      exact ⟨it2, by simp [hmem], he⟩

lemma add_new_downloads_store (m : Manager) (entries : List Entry)
    (folder : String) (st : Store) (hdb : m.db = some st)
    (hsv : m.save_history = true) :
    (m.add_new_downloads entries folder).db =
      some (st.upsert_many (List.zip (entries.map (buildItem folder))
        (entries.map Entry.idGiven))).1 ∧
    (m.add_new_downloads entries folder).downloads =
      addLoop m.downloads
        (st.upsert_many (List.zip (entries.map (buildItem folder))
          (entries.map Entry.idGiven))).2 0 (entries.map (buildItem folder)) := by
  unfold Manager.add_new_downloads
  rw [hdb, hsv]
  exact ⟨rfl, rfl⟩

lemma add_new_downloads_nostore (m : Manager) (entries : List Entry)
    (folder : String) (h : m.db = none ∨ m.save_history = false) :
    (m.add_new_downloads entries folder).db = m.db ∧
    (m.add_new_downloads entries folder).downloads =
      addLoop m.downloads [] 0 (entries.map (buildItem folder)) := by
  unfold Manager.add_new_downloads
  rcases h with h | h
  · rw [h]
    cases hsv : m.save_history <;> exact ⟨rfl, rfl⟩
  · rw [h]
    rcases hdbv : m.db with _ | st <;> exact ⟨rfl, rfl⟩

lemma buildItem_defaults (folder : String) (e : Entry)
    (h1 : e.statusGiven = none) (h2 : e.downloadedGiven = none)
    (h3 : e.totalGiven = none) :
    (buildItem folder e).status = DownloadStatus.PENDING ∧
    (buildItem folder e).downloaded_bytes = 0 ∧
    (buildItem folder e).total_bytes = 0 := by
  simp [buildItem, h1, h2, h3]

lemma tempPath_ne_finalPath (r : Rec) : tempPath r ≠ finalPath r := by
  intro h
  have hlen := congrArg String.length h
  rw [tempPath, String.length_append] at hlen
  have h5 : (".part" : String).length = 5 := rfl
  omega

lemma mem_unlink {fs : List String} {p q : String} :
    p ∈ unlink fs q ↔ p ∈ fs ∧ p ≠ q := by
  simp [unlink, List.mem_filter]

lemma foldl_unlink_subset :
    ∀ (l : List (Nat × Rec)) (fs : List String) (p : String),
      p ∈ l.foldl (fun acc q => unlink acc (finalPath q.2)) fs → p ∈ fs := by
  intro l
  induction l with
  | nil =>
    intro fs p h
    exact h
  | cons q rest ih =>
    intro fs p h
    exact (mem_unlink.mp (ih _ p h)).1

lemma foldl_unlink_mem :
    ∀ (l : List (Nat × Rec)) (fs : List String) (p : String),
      p ∈ fs → (∀ q ∈ l, p ≠ finalPath q.2) →
      p ∈ l.foldl (fun acc q => unlink acc (finalPath q.2)) fs := by
  intro l
  induction l with
  | nil =>
    intro fs p h _
    exact h
  | cons q rest ih =>
    intro fs p h hne
    exact ih _ p (mem_unlink.mpr ⟨h, hne q (by simp)⟩)
      (fun q2 hq2 => hne q2 (by simp [hq2]))

lemma delete_item_fs (m : Manager) (fs : List String) (id : Nat) (rec : Rec)
    (hl : List.lookup id m.downloads = some rec) (hw : rec.hasWorker = false) :
    (m.delete_item fs id true).2 = unlink fs (finalPath rec) := by
  unfold Manager.delete_item
  rw [hl]
  simp [hw]

lemma delete_all_fs (m : Manager) (fs : List String) :
    (m.delete_all fs true).2 =
      m.downloads.foldl (fun acc p => unlink acc (finalPath p.2)) fs := by
  unfold Manager.delete_all
  simp

/-! ## Claims C8, C9, C10 -/

/-- First batch added with no store configured: two requests. -/
def batchOne : Manager :=
  ({} : Manager).add_new_downloads
    [{ url := "http://h/a" }, { url := "http://h/b" }] "/d"

/-- Second batch: one further request on top of the first two. -/
def batchTwo : Manager :=
  batchOne.add_new_downloads [{ url := "http://h/c" }] "/d"

/-- C8 is violated by the code: without a store, ids are computed as
`len(self._downloads) + 1 + index` against the live dict length
(manager.py line 113), which grows while the loop inserts.  The first
batch of two requests gets ids 1 and 3; the next batch's single request
gets `2 + 1 + 0 = 3` again, overwriting the record already stored under
id 3 (request "b" is silently replaced by "c"). -/
theorem C8_id_collision :
    batchOne.downloads.map Prod.fst = [1, 3] ∧
    batchTwo.downloads.map Prod.fst = [1, 3] ∧
    (List.lookup 3 batchOne.downloads).map Rec.url = some "http://h/b" ∧
    (List.lookup 3 batchTwo.downloads).map Rec.url = some "http://h/c" := by
  decide

/-- C9 is refuted by the code: `**entry` is merged last in the item
construction (manager.py line 97), so a request dictionary carrying a
`downloaded_bytes` key overrides the documented zero default; the single
registered record carries 5 downloaded bytes, not 0. -/
theorem C9_counterexample :
    (List.lookup 1 (({} : Manager).add_new_downloads
        [{ url := "http://h/a", downloadedGiven := some 5 }] "/d").downloads).map
      Rec.downloaded_bytes = some 5 ∧
    ¬ (List.lookup 1 (({} : Manager).add_new_downloads
        [{ url := "http://h/a", downloadedGiven := some 5 }] "/d").downloads).map
      Rec.downloaded_bytes = some 0 := by
  decide

/-- C9 (amended): for every request whose dictionary does not carry a
`status`, `downloaded_bytes` or `total_bytes` key, the record registered
in memory — and every row persisted by the batch upsert, when persistence
is enabled — has status PENDING, `downloaded_bytes = 0` and
`total_bytes = 0`; requests carrying those reserved keys override the
defaults through the `**entry` merge. -/
theorem C9_add_defaults (m : Manager) (entries : List Entry) (folder : String)
    (hclean : ∀ e ∈ entries, e.statusGiven = none ∧ e.downloadedGiven = none ∧
      e.totalGiven = none) :
    (∀ p ∈ (m.add_new_downloads entries folder).downloads,
      p ∈ m.downloads ∨
        (p.2.status = DownloadStatus.PENDING ∧ p.2.downloaded_bytes = 0 ∧
          p.2.total_bytes = 0)) ∧
    (∀ st st2, m.db = some st →
      (m.add_new_downloads entries folder).db = some st2 →
      ∀ q ∈ st2.rows,
        q ∈ st.rows ∨
          (q.2.status = DownloadStatus.PENDING ∧ q.2.downloaded_bytes = 0 ∧
            q.2.total_bytes = 0)) := by
  have hitem : ∀ r ∈ entries.map (buildItem folder),
      r.status = DownloadStatus.PENDING ∧ r.downloaded_bytes = 0 ∧
        r.total_bytes = 0 := by
    intro r hr
    rcases List.mem_map.mp hr with ⟨e, he, hre⟩
    rcases hclean e he with ⟨h1, h2, h3⟩
    rw [← hre]
    exact buildItem_defaults folder e h1 h2 h3
  constructor
  · intro p hp
    by_cases hstore : m.db = none ∨ m.save_history = false
    · rw [(add_new_downloads_nostore m entries folder hstore).2] at hp
      rcases mem_addLoop hp with h | h
      · exact Or.inl h
      · exact Or.inr (hitem p.2 h)
    · push_neg at hstore
      rcases Option.ne_none_iff_exists.mp hstore.1 with ⟨st, hdb⟩
      have hsv : m.save_history = true := by
        cases hv : m.save_history
        · exact absurd hv hstore.2
        · rfl
      rw [(add_new_downloads_store m entries folder st hdb.symm hsv).2] at hp
      rcases mem_addLoop hp with h | h
      · exact Or.inl h
      · exact Or.inr (hitem p.2 h)
  · intro st st2 hdb hdb2 q hq
    cases hsv : m.save_history with
    | false =>
      rw [(add_new_downloads_nostore m entries folder (Or.inr hsv)).1, hdb]
        at hdb2
      injection hdb2 with h
      rw [← h] at hq
      exact Or.inl hq
    | true =>
      rw [(add_new_downloads_store m entries folder st hdb hsv).1] at hdb2
      injection hdb2 with hdb2
      rw [← hdb2] at hq
      rcases mem_upsert_many_rows _ _ q hq with h | h
      · exact Or.inl h
      · rcases h with ⟨it, hmem, he⟩
        have : it.1 ∈ entries.map (buildItem folder) :=
          (List.of_mem_zip hmem).1
        rw [he]
        exact Or.inr (hitem it.1 this)

/-- A fresh manager with an empty persistence store and history saving
enabled. -/
def sampleWithStore : Manager :=
  { save_history := true
    db := some { rows := [], nextId := 1 } }

/-- Witness for C9: one clean request against a manager with an empty
configured store. -/
theorem C9_add_defaults_witness :
    (∀ e ∈ [({ url := "http://h/a" } : Entry)], e.statusGiven = none ∧
      e.downloadedGiven = none ∧ e.totalGiven = none) ∧
    ((∀ p ∈ (sampleWithStore.add_new_downloads
        [{ url := "http://h/a" }] "/d").downloads,
      p ∈ sampleWithStore.downloads ∨
        (p.2.status = DownloadStatus.PENDING ∧ p.2.downloaded_bytes = 0 ∧
          p.2.total_bytes = 0)) ∧
    (∀ st st2, sampleWithStore.db = some st →
      (sampleWithStore.add_new_downloads [{ url := "http://h/a" }] "/d").db =
        some st2 →
      ∀ q ∈ st2.rows,
        q ∈ st.rows ∨
          (q.2.status = DownloadStatus.PENDING ∧ q.2.downloaded_bytes = 0 ∧
            q.2.total_bytes = 0))) :=
  ⟨by decide, C9_add_defaults sampleWithStore
    [{ url := "http://h/a" }] "/d" (by decide)⟩

/-- C10: `delete(id, delete_file=true)` for an item with no live worker
unlinks exactly the destination `folder_path/filename`; `delete_all`
unlinks only destination paths; neither touches a `.part` temp file, so a
partial file of an item with no live worker stays on disk. -/
theorem C10_delete_spares_temp (m : Manager) (fs : List String) (id : Nat)
    (rec : Rec) (hl : List.lookup id m.downloads = some rec)
    (hw : rec.hasWorker = false) :
    ((m.delete_item fs id true).2 = unlink fs (finalPath rec) ∧
      (tempPath rec ∈ fs → tempPath rec ∈ (m.delete_item fs id true).2)) ∧
    (∀ p ∈ fs, (∀ q ∈ m.downloads, p ≠ finalPath q.2) →
      p ∈ (m.delete_all fs true).2) ∧
    (∀ p ∈ (m.delete_all fs true).2, p ∈ fs) := by
  refine ⟨⟨delete_item_fs m fs id rec hl hw, ?_⟩, ?_, ?_⟩
  · intro htemp
    rw [delete_item_fs m fs id rec hl hw]
    exact mem_unlink.mpr ⟨htemp, tempPath_ne_finalPath rec⟩
  · intro p hp hne
    rw [delete_all_fs]
    exact foldl_unlink_mem m.downloads fs p hp hne
  · intro p hp
    rw [delete_all_fs] at hp
    exact foldl_unlink_subset m.downloads fs p hp

/-- Witness for C10: deleting the worker-less ERROR item removes only its
destination file and leaves its `.part` temp file present. -/
theorem C10_delete_spares_temp_witness :
    (List.lookup 1 sampleErrored.downloads = some sampleErroredRec ∧
      sampleErroredRec.hasWorker = false) ∧
    (((sampleErrored.delete_item ["/d/e.mp3", "/d/e.mp3.part"] 1 true).2 =
        unlink ["/d/e.mp3", "/d/e.mp3.part"] (finalPath sampleErroredRec) ∧
      (tempPath sampleErroredRec ∈ ["/d/e.mp3", "/d/e.mp3.part"] →
        tempPath sampleErroredRec ∈
          (sampleErrored.delete_item ["/d/e.mp3", "/d/e.mp3.part"] 1 true).2)) ∧
    (∀ p ∈ ["/d/e.mp3", "/d/e.mp3.part"],
      (∀ q ∈ sampleErrored.downloads, p ≠ finalPath q.2) →
      p ∈ (sampleErrored.delete_all ["/d/e.mp3", "/d/e.mp3.part"] true).2) ∧
    (∀ p ∈ (sampleErrored.delete_all ["/d/e.mp3", "/d/e.mp3.part"] true).2,
      p ∈ ["/d/e.mp3", "/d/e.mp3.part"])) :=
  ⟨⟨by decide, by decide⟩, C10_delete_spares_temp sampleErrored
    ["/d/e.mp3", "/d/e.mp3.part"] 1 sampleErroredRec (by decide) (by decide)⟩

/-- The byte counts observed along the streaming loop: the starting offset
followed by the value of `downloaded_bytes` after each chunk. -/
def traceDownloads (hasDb : Bool) (total downloaded : Nat) (chunks : List Nat) : List Nat :=
  downloaded :: (streamTrace hasDb total downloaded chunks).map ChunkEffect.downloaded

lemma percentage_mono (total : Nat) {d1 d2 : Nat} (h : d1 ≤ d2) :
    percentage d1 total ≤ percentage d2 total := by
  unfold percentage
  split
  · exact le_rfl
  · exact Nat.div_le_div_right (Nat.mul_le_mul_right _ h)

lemma chunkEffect_downloaded (hasDb : Bool) (total d c : Nat) :
    (chunkEffect hasDb total d c).downloaded = d + c := by
  unfold chunkEffect
  split
  · simp_all
  · rfl

lemma streamFinal_eq (hasDb : Bool) (total d : Nat) (chunks : List Nat) :
    streamFinal hasDb total d chunks = d + chunks.sum := by
  induction chunks generalizing d with
  | nil => simp [streamFinal]
  | cons c cs ih =>
    have : streamFinal hasDb total d (c :: cs) =
        streamFinal hasDb total (chunkEffect hasDb total d c).downloaded cs := rfl
    rw [this, ih, chunkEffect_downloaded, List.sum_cons]
    omega

lemma traceDownloads_chain (hasDb : Bool) (total d : Nat) (chunks : List Nat) :
    List.Chain' (· ≤ ·) (traceDownloads hasDb total d chunks) := by
  induction chunks generalizing d with
  | nil => simp [traceDownloads, streamTrace]
  | cons c cs ih =>
    have hrec : traceDownloads hasDb total d (c :: cs) =
        d :: traceDownloads hasDb total (chunkEffect hasDb total d c).downloaded cs := by
      simp [traceDownloads, streamTrace]
    rw [hrec]
    refine List.chain'_cons'.mpr ⟨?_, ih _⟩
    intro y hy
    have hhead : y = (chunkEffect hasDb total d c).downloaded :=
      (by simpa [traceDownloads] using hy : _ = y).symm
    rw [hhead, chunkEffect_downloaded]
    omega

lemma chunkEffect_emit_iff (hasDb : Bool) (total d c : Nat) (hc : 0 < c) :
    (chunkEffect hasDb total d c).emitProgress = true ↔
      (percentage d total + 1 ≤ percentage (d + c) total ∨ d + c = total) := by
  unfold chunkEffect
  rw [if_neg (by omega)]
  simp only [decide_eq_true_iff]
  constructor
  · rintro (h | h)
    · left; omega
    · right; exact h
  · rintro (h | h)
    · left; omega
    · right; exact h

lemma chunkEffect_persist_iff (hasDb : Bool) (total d c : Nat) :
    (chunkEffect hasDb total d c).dbPersist = true ↔
      (hasDb = true ∧ (chunkEffect hasDb total d c).emitProgress = true) := by
  unfold chunkEffect
  split
  · simp
  · cases hasDb <;> simp

lemma emitTrace_spec (hasDb : Bool) (total : Nat) (chunks : List Nat)
    (hpos : ∀ c ∈ chunks, 0 < c) :
    ∀ d, ∀ entry ∈ emitTrace hasDb total d (percentage d total) chunks,
      ((entry.2.2.emitProgress = true ↔
        (entry.2.1 + 1 ≤ percentage entry.1 total ∨ entry.1 = total)) ∧
      (entry.2.2.dbPersist = true ↔
        (hasDb = true ∧ entry.2.2.emitProgress = true))) := by
  induction chunks with
  | nil =>
    intro d entry h
    simp [emitTrace] at h
  | cons c cs ih =>
    intro d entry h
    have hc : 0 < c := hpos c (by simp)
    have hstep : emitTrace hasDb total d (percentage d total) (c :: cs) =
        ((chunkEffect hasDb total d c).downloaded, percentage d total,
          chunkEffect hasDb total d c) ::
        emitTrace hasDb total (chunkEffect hasDb total d c).downloaded
          (if (chunkEffect hasDb total d c).emitProgress then
            percentage (chunkEffect hasDb total d c).downloaded total
           else percentage d total) cs := rfl
    rw [hstep] at h
    rcases List.mem_cons.mp h with hhead | htail
    · subst hhead
      refine ⟨?_, chunkEffect_persist_iff hasDb total d c⟩
      simpa [chunkEffect_downloaded] using chunkEffect_emit_iff hasDb total d c hc
    · have hghost : (if (chunkEffect hasDb total d c).emitProgress then
          percentage (chunkEffect hasDb total d c).downloaded total
         else percentage d total) =
          percentage (chunkEffect hasDb total d c).downloaded total := by
        by_cases hemit : (chunkEffect hasDb total d c).emitProgress = true
        · rw [if_pos hemit]
        · rw [if_neg hemit]
          have hnot := (chunkEffect_emit_iff hasDb total d c hc).not.mp
            (by simpa using hemit)
          push_neg at hnot
          have hle : percentage (d + c) total ≤ percentage d total := by omega
          have hge : percentage d total ≤ percentage (d + c) total :=
            percentage_mono total (by omega)
          rw [chunkEffect_downloaded]
          omega
      rw [hghost] at htail
      exact ih (fun x hx => hpos x (by simp [hx])) _ entry htail

/-- C1 (as stated) is refuted by the code: with an existing 1-byte temp
file and a response carrying no content-length header, the worker computes
`total_bytes = 1 + 0 = 1 > 0`, yet receiving a single further 1-byte chunk
drives `downloaded_bytes` to 2, exceeding `total_bytes`. -/
theorem C1_counterexample :
    0 < (downloadSetup true 1 0).total ∧
    ¬ streamFinal false (downloadSetup true 1 0).total
        (downloadSetup true 1 0).offset [1] ≤ (downloadSetup true 1 0).total := by
  decide

/-- C1 (amended): during the streaming loop `downloaded_bytes` is
monotonically non-decreasing, and it never exceeds `total_bytes` once
`total_bytes > 0` provided the response body delivers no more bytes than
its declared content-length (the claim fails without this proviso, e.g.
when the response has no content-length header, see the counterexample). -/
theorem C1_downloaded_monotone_and_bounded (hasDb tempExists : Bool)
    (tempSize clen : Nat) (chunks : List Nat) (hsum : chunks.sum ≤ clen) :
    List.Chain' (· ≤ ·)
      (traceDownloads hasDb (downloadSetup tempExists tempSize clen).total
        (downloadSetup tempExists tempSize clen).offset chunks) ∧
    (0 < (downloadSetup tempExists tempSize clen).total →
      streamFinal hasDb (downloadSetup tempExists tempSize clen).total
          (downloadSetup tempExists tempSize clen).offset chunks ≤
        (downloadSetup tempExists tempSize clen).total) := by
  constructor
  · exact traceDownloads_chain _ _ _ _
  · intro _
    rw [streamFinal_eq]
    have htot : (downloadSetup tempExists tempSize clen).total =
        (downloadSetup tempExists tempSize clen).offset + clen := by
      cases tempExists <;> rfl
    omega

/-- Witness for C1: concrete run with offset 5, content-length 50 and two
chunks of 10 and 20 bytes. -/
theorem C1_downloaded_monotone_and_bounded_witness :
    ([10, 20] : List Nat).sum ≤ 50 ∧
    (List.Chain' (· ≤ ·)
      (traceDownloads false (downloadSetup true 5 50).total
        (downloadSetup true 5 50).offset [10, 20]) ∧
    (0 < (downloadSetup true 5 50).total →
      streamFinal false (downloadSetup true 5 50).total
          (downloadSetup true 5 50).offset [10, 20] ≤
        (downloadSetup true 5 50).total)) :=
  ⟨by decide, C1_downloaded_monotone_and_bounded false true 5 50 [10, 20] (by decide)⟩

/-- C3: the resume offset equals the size of the existing temp file (0 if
absent); the file is opened in append mode iff the offset is positive and
in create/truncate mode otherwise; a Range byte-range header carrying the
offset is sent iff the offset is positive; and `total_bytes` is the offset
plus the response's content-length. -/
theorem C3_resume_setup (tempExists : Bool) (tempSize clen : Nat) :
    (downloadSetup tempExists tempSize clen).offset =
      (if tempExists then tempSize else 0) ∧
    ((downloadSetup tempExists tempSize clen).mode = FileMode.append ↔
      0 < (downloadSetup tempExists tempSize clen).offset) ∧
    ((downloadSetup tempExists tempSize clen).mode = FileMode.truncate ↔
      (downloadSetup tempExists tempSize clen).offset = 0) ∧
    ((downloadSetup tempExists tempSize clen).rangeHeader =
        some (downloadSetup tempExists tempSize clen).offset ↔
      0 < (downloadSetup tempExists tempSize clen).offset) ∧
    ((downloadSetup tempExists tempSize clen).rangeHeader = none ↔
      (downloadSetup tempExists tempSize clen).offset = 0) ∧
    (downloadSetup tempExists tempSize clen).total =
      (downloadSetup tempExists tempSize clen).offset + clen := by
  cases tempExists with
  | false => simp [downloadSetup]
  | true =>
    by_cases h : tempSize > 0
    · simp [downloadSetup, h]
      omega
    · simp [downloadSetup, h]
      omega

/-- C7: during streaming, a progress event is emitted after exactly those
written chunks for which the integer percentage has advanced by at least
one point since the last emitted progress event, or the download has just
reached `total_bytes`; and the updated byte counters are persisted to the
db at the same cadence whenever a db is configured. -/
theorem C7_progress_coalescing (hasDb tempExists : Bool) (tempSize clen : Nat)
    (chunks : List Nat) (hpos : ∀ c ∈ chunks, 0 < c) :
    ∀ entry ∈ emitTrace hasDb (downloadSetup tempExists tempSize clen).total
        (downloadSetup tempExists tempSize clen).offset
        (percentage (downloadSetup tempExists tempSize clen).offset
          (downloadSetup tempExists tempSize clen).total) chunks,
      ((entry.2.2.emitProgress = true ↔
        (entry.2.1 + 1 ≤ percentage entry.1 (downloadSetup tempExists tempSize clen).total ∨
          entry.1 = (downloadSetup tempExists tempSize clen).total)) ∧
      (entry.2.2.dbPersist = true ↔
        (hasDb = true ∧ entry.2.2.emitProgress = true))) :=
  emitTrace_spec hasDb (downloadSetup tempExists tempSize clen).total chunks hpos
    (downloadSetup tempExists tempSize clen).offset

/-- Witness for C7: a 10-byte download streamed in two 5-byte chunks with a
configured db. -/
theorem C7_progress_coalescing_witness :
    (∀ c ∈ ([5, 5] : List Nat), 0 < c) ∧
    (∀ entry ∈ emitTrace true (downloadSetup false 0 10).total
        (downloadSetup false 0 10).offset
        (percentage (downloadSetup false 0 10).offset
          (downloadSetup false 0 10).total) [5, 5],
      ((entry.2.2.emitProgress = true ↔
        (entry.2.1 + 1 ≤ percentage entry.1 (downloadSetup false 0 10).total ∨
          entry.1 = (downloadSetup false 0 10).total)) ∧
      (entry.2.2.dbPersist = true ↔
        (true = true ∧ entry.2.2.emitProgress = true)))) :=
  ⟨by decide, C7_progress_coalescing true false 0 10 [5, 5] (by decide)⟩

/-- C6 (as stated) is refuted by the code: a worker that observes a set
cancel flag at the top of the streaming loop (worker.py line 84) — e.g.
the manager-wide `_cancel_all` flag — emits CANCELLED and returns, but its
temp file is NOT deleted (deletion happens only inside the `cancel()`
method); here a cancelled run ends with the temp file still on disk. -/
theorem C6_counterexample :
    (runStream false 10 false 0 true [ChunkStep.cancelObserved]).events =
      [StreamEvent.statusEvent DownloadStatus.CANCELLED] ∧
    (runStream false 10 false 0 true [ChunkStep.cancelObserved]).tempOnDisk = true ∧
    (runStream false 10 false 0 true [ChunkStep.cancelObserved]).finalOnDisk = false := by
  decide

lemma runStream_no_finalize (hasDb : Bool) (total : Nat) (endCancelled : Bool) :
    ∀ (steps : List ChunkStep) (d : Nat) (temp : Bool),
      (ChunkStep.cancelObserved ∈ steps ∨
        ChunkStep.pauseCancelObserved ∈ steps ∨ endCancelled = true) →
      (runStream hasDb total endCancelled d temp steps).finalOnDisk = false ∧
      StreamEvent.finishedEvent ∉
        (runStream hasDb total endCancelled d temp steps).events ∧
      StreamEvent.statusEvent DownloadStatus.COMPLETED ∉
        (runStream hasDb total endCancelled d temp steps).events := by
  intro steps
  induction steps with
  | nil =>
    intro d temp hcancel
    rcases hcancel with h | h | h
    · simp at h
    · simp at h
    · subst h
      simp [runStream]
  | cons s rest ih =>
    intro d temp hcancel
    cases s with
    | chunk c =>
      have hrest : ChunkStep.cancelObserved ∈ rest ∨
          ChunkStep.pauseCancelObserved ∈ rest ∨ endCancelled = true := by
        rcases hcancel with h | h | h
        · left; simpa using h
        · right; left; simpa using h
        · right; right; exact h
      have hr := ih (chunkEffect hasDb total d c).downloaded temp hrest
      have hrun : runStream hasDb total endCancelled d temp
          (ChunkStep.chunk c :: rest) =
          { runStream hasDb total endCancelled
              (chunkEffect hasDb total d c).downloaded temp rest with
            events := (if (chunkEffect hasDb total d c).emitProgress then
                [StreamEvent.progressEvent,
                 StreamEvent.statusEvent DownloadStatus.DOWNLOADING] else []) ++
              (runStream hasDb total endCancelled
                (chunkEffect hasDb total d c).downloaded temp rest).events } := rfl
      rw [hrun]
      refine ⟨hr.1, ?_, ?_⟩
      · simp only [List.mem_append]
        rintro (h | h)
        · split at h <;> simp_all
        · exact hr.2.1 h
      · simp only [List.mem_append]
        rintro (h | h)
        · split at h <;> simp_all
        · exact hr.2.2 h
    | cancelObserved => simp [runStream]
    | pauseCancelObserved => simp [runStream]

/-- C6 (amended): the `cancel()` method itself deletes the temp file and
emits CANCELLED; and whenever a cancellation is observed by the worker —
at the streaming-loop check, at the pause-wait check, or by the flag test
guarding finalisation — no final file is produced at the destination and
neither a COMPLETED status nor a finished event is emitted (cancellations
observed only through the flags leave the temp file in place). -/
theorem C6_cancel_cleanup (hasDb : Bool) (total : Nat) (endCancelled : Bool)
    (d : Nat) (temp : Bool) (steps : List ChunkStep)
    (hcancel : ChunkStep.cancelObserved ∈ steps ∨
      ChunkStep.pauseCancelObserved ∈ steps ∨ endCancelled = true) :
    (∀ t : Bool, (cancelMethod t).tempOnDisk = false ∧
      (cancelMethod t).events = [StreamEvent.statusEvent DownloadStatus.CANCELLED]) ∧
    (runStream hasDb total endCancelled d temp steps).finalOnDisk = false ∧
    StreamEvent.finishedEvent ∉ (runStream hasDb total endCancelled d temp steps).events ∧
    StreamEvent.statusEvent DownloadStatus.COMPLETED ∉
      (runStream hasDb total endCancelled d temp steps).events :=
  ⟨fun _ => ⟨rfl, rfl⟩,
    runStream_no_finalize hasDb total endCancelled steps d temp hcancel⟩

/-- Witness for C6: a streaming run that observes the cancel flag after one
5-byte chunk finalises nothing, and the cancel method deletes the temp. -/
theorem C6_cancel_cleanup_witness :
    (ChunkStep.cancelObserved ∈ [ChunkStep.chunk 5, ChunkStep.cancelObserved] ∨
      ChunkStep.pauseCancelObserved ∈ [ChunkStep.chunk 5, ChunkStep.cancelObserved] ∨
      false = true) ∧
    ((∀ t : Bool, (cancelMethod t).tempOnDisk = false ∧
      (cancelMethod t).events = [StreamEvent.statusEvent DownloadStatus.CANCELLED]) ∧
    (runStream false 10 false 0 true
      [ChunkStep.chunk 5, ChunkStep.cancelObserved]).finalOnDisk = false ∧
    StreamEvent.finishedEvent ∉ (runStream false 10 false 0 true
      [ChunkStep.chunk 5, ChunkStep.cancelObserved]).events ∧
    StreamEvent.statusEvent DownloadStatus.COMPLETED ∉
      (runStream false 10 false 0 true
        [ChunkStep.chunk 5, ChunkStep.cancelObserved]).events) :=
  ⟨by decide, C6_cancel_cleanup false 10 false 0 true
    [ChunkStep.chunk 5, ChunkStep.cancelObserved] (by decide)⟩

end Downloader
